import Mathlib

/-!
Verification of the VirtualTaj BSP compiler (src/bspc.c), indexed-mesh
builder (src/gld.c) and collision detector (src/coldet.c).

Modelling conventions:
* Geometric code is embedded with exact rational arithmetic: the C types
  GLfloat and GLdouble are idealised as the rationals, and the literal
  floating-point tolerances of the source appear as their exact rational
  values.  DBL_EPSILON, DBL_MAX, FLT_EPSILON, FLT_MAX and FLT_MIN are the
  exact values of the corresponding IEEE constants.
* Serialization code is embedded at the byte level.  The C serializer only
  moves raw bytes, so a 32-bit float (resp. 64-bit double) travels as its
  bit pattern, kept here as a natural number below 2 to the 32 (resp. 64).
* The square root of a rational is irrational in general, so the one plane
  producing routine, GetPlaneForTri, which divides by the norm of a cross
  product, is passed to its callers as an explicit function argument (named
  planeOf below); returning none models its degenerate-triangle failure
  path.  Theorems quantify over this argument.
-/

namespace VTaj

/-- Type of a point with respect to a partition plane (bsp.h, PointType). -/
inductive PointType where
  | BELOW_PLANE
  | ON_PLANE
  | ABOVE_PLANE
deriving DecidableEq, Repr, Inhabited

/-- A plane given by the equation Ax + By + Cz + D = 0 (bsp.h, BSPPlane),
with GLdouble coefficients idealised as rationals. -/
structure BSPPlane where
  A : ℚ
  B : ℚ
  C : ℚ
  D : ℚ
deriving DecidableEq, Repr, Inhabited

/-- A 3-D point with GLfloat coordinates idealised as rationals. -/
structure Vec3 where
  x : ℚ
  y : ℚ
  z : ℚ
deriving DecidableEq, Repr, Inhabited

/-- The assumed thickness of a plane for coplanarity comparisons
(bspc.c, PLANE_THICKNESS = 0.0005). -/
def PLANE_THICKNESS : ℚ := 5 / 10000

/-- DBL_EPSILON as an exact rational. -/
def DBL_EPSILON : ℚ := 1 / 2 ^ 52

/-- DBL_MAX as an exact rational. -/
def DBL_MAX : ℚ := 2 ^ 1024 - 2 ^ 971

/-- FLT_EPSILON as an exact rational. -/
def FLT_EPSILON : ℚ := 1 / 2 ^ 23

/-- FLT_MAX as an exact rational. -/
def FLT_MAX : ℚ := 2 ^ 128 - 2 ^ 104

/-- FLT_MIN (smallest positive normal float) as an exact rational. -/
def FLT_MIN : ℚ := 1 / 2 ^ 126

/-- The C library function fabs, on exact rationals. -/
def fabs (q : ℚ) : ℚ := if q < 0 then -q else q

/-- ClassifyPoint (bspc.c): plug the point into the plane equation and
classify the signed distance against the fat plane of thickness
PLANE_THICKNESS. -/
def ClassifyPoint (aPt : Vec3) (partPlane : BSPPlane) : PointType :=
  let vDist :=
    partPlane.A * aPt.x + partPlane.B * aPt.y + partPlane.C * aPt.z + partPlane.D
  if fabs vDist ≤ PLANE_THICKNESS then .ON_PLANE
  else if vDist > PLANE_THICKNESS then .ABOVE_PLANE
  else .BELOW_PLANE

/-- Type of a triangle with respect to a partition plane (bspc.c, TriType). -/
inductive TriType where
  | IN_BACK
  | SPANNING
  | COINCIDENT
  | IN_FRONT
deriving DecidableEq, Repr, Inhabited

/-- Core of ClassifyTri (bspc.c): count the three vertex classifications and
derive the triangle type, exactly as the loop and if-chain of the source. -/
def classifyTriOfTypes (t0 t1 t2 : PointType) : TriType :=
  let count := fun (p : PointType) =>
    (if t0 = p then 1 else 0) + (if t1 = p then 1 else 0) + (if t2 = p then 1 else 0)
  let vOnPlane : ℕ := count .ON_PLANE
  let vAbove : ℕ := count .ABOVE_PLANE
  let vBelow : ℕ := count .BELOW_PLANE
  if vOnPlane = 3 then .COINCIDENT
  else if vAbove + vOnPlane = 3 then .IN_FRONT
  else if vBelow + vOnPlane = 3 then .IN_BACK
  else .SPANNING

/-- A triangle as carried on the BSP working lists (bspc.c, BSPTriNode):
three vertices, the plane computed for it, a texture index and the texture
coordinates at the three vertices.  The intrusive prev/next links of the C
structure are replaced by membership in Lean lists. -/
structure BSPTriNode where
  V : Vec3 × Vec3 × Vec3
  plane : BSPPlane
  tIndex : ℕ
  T : (ℚ × ℚ) × (ℚ × ℚ) × (ℚ × ℚ)
deriving DecidableEq, Repr, Inhabited

/-- ClassifyTri (bspc.c): classify a triangle against a partition plane from
its three vertex classifications. -/
def ClassifyTri (aTri : BSPTriNode) (partPlane : BSPPlane) : TriType :=
  classifyTriOfTypes (ClassifyPoint aTri.V.1 partPlane)
    (ClassifyPoint aTri.V.2.1 partPlane) (ClassifyPoint aTri.V.2.2 partPlane)

/-- IntersectPlaneLineSeg (bspc.c): parametric intersection of the segment
from v0 to v1 with a plane.  Returns the parameter t and the intersection
point.  When the adaptive epsilon test reports the segment as parallel the C
code leaves the result buffer untouched and returns DBL_MAX; the model then
returns the pair (DBL_MAX, v0), and no theorem below depends on the point
component of that branch. -/
def IntersectPlaneLineSeg (p : BSPPlane) (v0 v1 : Vec3) : ℚ × Vec3 :=
  let lSeg : Vec3 := ⟨v1.x - v0.x, v1.y - v0.y, v1.z - v0.z⟩
  let denom := p.A * lSeg.x + p.B * lSeg.y + p.C * lSeg.z
  let epsilon := fabs ((p.A + v1.z) * DBL_EPSILON / 2)
  if fabs denom > epsilon then
    let numer := -(p.A * v0.x + p.B * v0.y + p.C * v0.z + p.D)
    let t := numer / denom
    (t, ⟨v0.x + t * lSeg.x, v0.y + t * lSeg.y, v0.z + t * lSeg.z⟩)
  else (DBL_MAX, v0)

/-- One iteration of the anticlockwise edge walk of SplitTri (bspc.c): the
current vertex is appended to the front ring, the back ring, or both,
according to its classification, and when the edge to the next vertex
strictly crosses the plane the interpolated intersection point (with
texture coordinates interpolated by the same parameter) is appended to both
rings.  The vertex classifications are computed once before the walk, as in
the source, and are passed in here. -/
def splitStep (p : BSPPlane) (tyi tynext : PointType) (vi vnext : Vec3)
    (ti tnext : ℚ × ℚ)
    (rings : List (Vec3 × (ℚ × ℚ)) × List (Vec3 × (ℚ × ℚ))) :
    List (Vec3 × (ℚ × ℚ)) × List (Vec3 × (ℚ × ℚ)) :=
  let rings2 :=
    match tyi with
    | .ABOVE_PLANE => (rings.1 ++ [(vi, ti)], rings.2)
    | .BELOW_PLANE => (rings.1, rings.2 ++ [(vi, ti)])
    | .ON_PLANE => (rings.1 ++ [(vi, ti)], rings.2 ++ [(vi, ti)])
  if (tyi = .ABOVE_PLANE ∧ tynext = .BELOW_PLANE) ∨
      (tyi = .BELOW_PLANE ∧ tynext = .ABOVE_PLANE) then
    let r := IntersectPlaneLineSeg p vi vnext
    let t := r.1
    let itc : ℚ × ℚ := (ti.1 + t * (tnext.1 - ti.1), ti.2 + t * (tnext.2 - ti.2))
    (rings2.1 ++ [(r.2, itc)], rings2.2 ++ [(r.2, itc)])
  else rings2

/-- The front and back vertex rings built by the edge walk of SplitTri
(bspc.c): the three edges (0,1), (1,2), (2,0) are walked in anticlockwise
order starting from empty rings. -/
def SplitTriRings (aTri : BSPTriNode) (p : BSPPlane) :
    List (Vec3 × (ℚ × ℚ)) × List (Vec3 × (ℚ × ℚ)) :=
  let ty0 := ClassifyPoint aTri.V.1 p
  let ty1 := ClassifyPoint aTri.V.2.1 p
  let ty2 := ClassifyPoint aTri.V.2.2 p
  splitStep p ty2 ty0 aTri.V.2.2 aTri.V.1 aTri.T.2.2 aTri.T.1
    (splitStep p ty1 ty2 aTri.V.2.1 aTri.V.2.2 aTri.T.2.1 aTri.T.2.2
      (splitStep p ty0 ty1 aTri.V.1 aTri.V.2.1 aTri.T.1 aTri.T.2.1 ([], [])))

/-- Number of vertices one walk step of SplitTri appends to the front ring,
as a function of the classifications of the edge endpoints. -/
def frontAdd (tyi tynext : PointType) : ℕ :=
  (match tyi with
   | .ABOVE_PLANE => 1
   | .BELOW_PLANE => 0
   | .ON_PLANE => 1) +
  (if (tyi = .ABOVE_PLANE ∧ tynext = .BELOW_PLANE) ∨
      (tyi = .BELOW_PLANE ∧ tynext = .ABOVE_PLANE) then 1 else 0)

/-- Number of vertices one walk step of SplitTri appends to the back ring. -/
def backAdd (tyi tynext : PointType) : ℕ :=
  (match tyi with
   | .ABOVE_PLANE => 0
   | .BELOW_PLANE => 1
   | .ON_PLANE => 1) +
  (if (tyi = .ABOVE_PLANE ∧ tynext = .BELOW_PLANE) ∨
      (tyi = .BELOW_PLANE ∧ tynext = .ABOVE_PLANE) then 1 else 0)

theorem splitStep_length_fst (p : BSPPlane) (tyi tynext : PointType)
    (vi vnext : Vec3) (ti tnext : ℚ × ℚ)
    (rings : List (Vec3 × (ℚ × ℚ)) × List (Vec3 × (ℚ × ℚ))) :
    (splitStep p tyi tynext vi vnext ti tnext rings).1.length =
      rings.1.length + frontAdd tyi tynext := by
  cases tyi <;> cases tynext <;>
    simp [splitStep, frontAdd]

theorem splitStep_length_snd (p : BSPPlane) (tyi tynext : PointType)
    (vi vnext : Vec3) (ti tnext : ℚ × ℚ)
    (rings : List (Vec3 × (ℚ × ℚ)) × List (Vec3 × (ℚ × ℚ))) :
    (splitStep p tyi tynext vi vnext ti tnext rings).2.length =
      rings.2.length + backAdd tyi tynext := by
  cases tyi <;> cases tynext <;>
    simp [splitStep, backAdd]

/-- Label-level core of claim C3: for any spanning combination of vertex
classifications, the edge walk puts between 3 and 4 vertices on each ring. -/
theorem spanning_ring_counts (t0 t1 t2 : PointType)
    (h : classifyTriOfTypes t0 t1 t2 = .SPANNING) :
    3 ≤ frontAdd t0 t1 + frontAdd t1 t2 + frontAdd t2 t0 ∧
      frontAdd t0 t1 + frontAdd t1 t2 + frontAdd t2 t0 ≤ 4 ∧
      3 ≤ backAdd t0 t1 + backAdd t1 t2 + backAdd t2 t0 ∧
      backAdd t0 t1 + backAdd t1 t2 + backAdd t2 t0 ≤ 4 := by
  revert h
  cases t0 <;> cases t1 <;> cases t2 <;> decide

/-- Claim C3: when a triangle classifies as SPANNING against a plane (via
the per-vertex ClassifyPoint labels with plane thickness PLANE_THICKNESS),
the anticlockwise edge walk of SplitTri ends with at least 3 and at most 4
vertices on each of the front and back rings, so the two fatal error
branches of SplitTri (fewer than 3, or more than 4, vertices on a side) are
unreachable under that precondition. -/
theorem splitTri_ring_bounds (aTri : BSPTriNode) (p : BSPPlane)
    (h : ClassifyTri aTri p = .SPANNING) :
    3 ≤ (SplitTriRings aTri p).1.length ∧ (SplitTriRings aTri p).1.length ≤ 4 ∧
      3 ≤ (SplitTriRings aTri p).2.length ∧ (SplitTriRings aTri p).2.length ≤ 4 := by
  have hf : (SplitTriRings aTri p).1.length =
      frontAdd (ClassifyPoint aTri.V.1 p) (ClassifyPoint aTri.V.2.1 p) +
        frontAdd (ClassifyPoint aTri.V.2.1 p) (ClassifyPoint aTri.V.2.2 p) +
        frontAdd (ClassifyPoint aTri.V.2.2 p) (ClassifyPoint aTri.V.1 p) := by
    simp [SplitTriRings, splitStep_length_fst]
    try omega
  have hb : (SplitTriRings aTri p).2.length =
      backAdd (ClassifyPoint aTri.V.1 p) (ClassifyPoint aTri.V.2.1 p) +
        backAdd (ClassifyPoint aTri.V.2.1 p) (ClassifyPoint aTri.V.2.2 p) +
        backAdd (ClassifyPoint aTri.V.2.2 p) (ClassifyPoint aTri.V.1 p) := by
    simp [SplitTriRings, splitStep_length_snd]
    try omega
  have hspan := spanning_ring_counts (ClassifyPoint aTri.V.1 p)
    (ClassifyPoint aTri.V.2.1 p) (ClassifyPoint aTri.V.2.2 p) h
  rw [hf, hb]
  omega

/-- Witness for claim C3: a concrete triangle spanning the plane z = 0. -/
theorem splitTri_ring_bounds_witness :
    ClassifyTri ⟨(⟨0, 0, -1⟩, ⟨1, 0, 1⟩, ⟨0, 1, 0⟩), ⟨0, 0, 1, 0⟩, 0,
        ((0, 0), (1, 0), (0, 1))⟩ ⟨0, 0, 1, 0⟩ = .SPANNING ∧
      3 ≤ (SplitTriRings ⟨(⟨0, 0, -1⟩, ⟨1, 0, 1⟩, ⟨0, 1, 0⟩), ⟨0, 0, 1, 0⟩, 0,
        ((0, 0), (1, 0), (0, 1))⟩ ⟨0, 0, 1, 0⟩).1.length := by
  have hcl : ClassifyTri ⟨(⟨0, 0, -1⟩, ⟨1, 0, 1⟩, ⟨0, 1, 0⟩), ⟨0, 0, 1, 0⟩, 0,
      ((0, 0), (1, 0), (0, 1))⟩ ⟨0, 0, 1, 0⟩ = .SPANNING := by
    norm_num [ClassifyTri, classifyTriOfTypes, ClassifyPoint, fabs, PLANE_THICKNESS]
    decide
  exact ⟨hcl, (splitTri_ring_bounds _ _ hcl).1⟩

/-- UINT_MAX, the initial value of minScore in SelectNextRoot (bspc.c). -/
def UINT_MAX : ℕ := 2 ^ 32 - 1

/-- Classification counters accumulated by SelectNextRoot (bspc.c) for one
candidate: (splits, inFront, inBack, onPlane).  The inner while loop runs
over the whole list and skips the candidate itself by pointer identity,
modelled as inequality of list positions; the input here is the list paired
with positions. -/
def rootCounts (c : BSPTriNode) (ci : ℕ) :
    List (ℕ × BSPTriNode) → ℕ × ℕ × ℕ × ℕ
  | [] => (0, 0, 0, 0)
  | (j, t) :: rest =>
    let r := rootCounts c ci rest
    if j = ci then r
    else
      match ClassifyTri t c.plane with
      | .SPANNING => (r.1 + 1, r.2.1, r.2.2.1, r.2.2.2)
      | .IN_FRONT => (r.1, r.2.1 + 1, r.2.2.1, r.2.2.2)
      | .IN_BACK => (r.1, r.2.1, r.2.2.1 + 1, r.2.2.2)
      | .COINCIDENT => (r.1, r.2.1, r.2.2.1, r.2.2.2 + 1)

/-- Score of the candidate at position ci of the working list (bspc.c:
splits + abs(inFront - inBack)).  The C code subtracts the unsigned counters
and converts through int before abs; for fewer than 2^31 triangles this is
the natural distance, modelled here as the absolute value in ℤ. -/
def rootScore (l : List BSPTriNode) (ci : ℕ) : ℕ :=
  let c := l.getD ci default
  let r := rootCounts c ci l.enum
  r.1 + ((r.2.1 : ℤ) - (r.2.2.1 : ℤ)).natAbs

/-- Candidate scan of SelectNextRoot (bspc.c): walk the candidates in list
order keeping the first strict improvement of the score, and stop scanning
as soon as a candidate scores 0 (the early-exit branch of the source). -/
def selectLoop (l : List BSPTriNode) (i minScore : ℕ) (best : Option ℕ) :
    Option ℕ :=
  if i < l.length then
    let s := rootScore l i
    let best2 := if s < minScore then some i else best
    let min2 := if s < minScore then s else minScore
    if s = 0 then best2 else selectLoop l (i + 1) min2 best2
  else best
termination_by l.length - i
decreasing_by omega

/-- SelectNextRoot (bspc.c): picks the best candidate of the working list
and removes it, returning the candidate together with the rest of the list.
On the empty list the C code would dereference a null bestNode; the model
returns none there. -/
def SelectNextRoot (triList : List BSPTriNode) :
    Option (BSPTriNode × List BSPTriNode) :=
  match selectLoop triList 0 UINT_MAX none with
  | some i => some (triList.getD i default, triList.eraseIdx i)
  | none => none

theorem rootCounts_bound (c : BSPTriNode) (ci : ℕ) (el : List (ℕ × BSPTriNode)) :
    (rootCounts c ci el).1 + (rootCounts c ci el).2.1 +
      (rootCounts c ci el).2.2.1 + (rootCounts c ci el).2.2.2 ≤ el.length := by
  induction el with
  | nil => simp [rootCounts]
  | cons hd tl ih =>
    obtain ⟨j, t⟩ := hd
    simp only [rootCounts, List.length_cons]
    split
    · omega
    · split <;> simp <;> omega

theorem rootScore_le (l : List BSPTriNode) (ci : ℕ) :
    rootScore l ci ≤ l.length := by
  have h := rootCounts_bound (l.getD ci default) ci l.enum
  have hlen : l.enum.length = l.length := List.enum_length
  simp only [rootScore]
  omega

theorem selectLoop_some_spec (l : List BSPTriNode) (fuel : ℕ) :
    ∀ i ms b, l.length - i ≤ fuel → i ≤ l.length → b < i →
      rootScore l b = ms → 0 < ms →
      (∀ j, j < i → ms ≤ rootScore l j) →
      (∀ j, j < b → ms < rootScore l j) →
      ∃ b2, selectLoop l i ms (some b) = some b2 ∧ b2 < l.length ∧
        (∀ j, j < l.length → rootScore l b2 ≤ rootScore l j) ∧
        (∀ j, j < b2 → rootScore l b2 < rootScore l j) := by
  induction fuel with
  | zero =>
    intro i ms b hfuel hile hbi hsb hms hall hfirst
    have hieq : i = l.length := by omega
    rw [selectLoop]
    simp only [hieq, lt_irrefl, if_false]
    exact ⟨b, rfl, by omega, fun j hj => hsb ▸ hall j (by omega),
      fun j hj => hsb ▸ hfirst j hj⟩
  | succ fuel ih =>
    intro i ms b hfuel hile hbi hsb hms hall hfirst
    rw [selectLoop]
    by_cases hilt : i < l.length
    · simp only [hilt, if_true]
      by_cases hlt : rootScore l i < ms
      · simp only [hlt, if_true]
        by_cases hz : rootScore l i = 0
        · simp only [hz, if_true]
          refine ⟨i, rfl, hilt, fun j _ => by omega, fun j hj => ?_⟩
          have := hall j hj
          omega
        · simp only [hz, if_false]
          refine ih (i + 1) (rootScore l i) i (by omega) (by omega) (by omega)
            rfl (by omega) (fun j hj => ?_) (fun j hj => ?_)
          · rcases Nat.lt_succ_iff_lt_or_eq.mp hj with h | h
            · exact le_of_lt (lt_of_lt_of_le hlt (hall j h))
            · subst h
              exact le_refl _
          · exact lt_of_lt_of_le hlt (hall j hj)
      · simp only [hlt, if_false]
        have hz : ¬ rootScore l i = 0 := by omega
        simp only [hz, if_false]
        refine ih (i + 1) ms b (by omega) (by omega) (by omega) hsb hms
          (fun j hj => ?_) hfirst
        rcases Nat.lt_succ_iff_lt_or_eq.mp hj with h | h
        · exact hall j h
        · subst h
          omega
    · simp only [hilt, if_false]
      have hieq : i = l.length := by omega
      exact ⟨b, rfl, by omega, fun j hj => hsb ▸ hall j (by omega),
        fun j hj => hsb ▸ hfirst j hj⟩

/-- Claim C4: for every non-empty working list (of fewer than UINT_MAX
triangles), SelectNextRoot scores each candidate as
splits + abs(inFront - inBack) over all other triangles of the list,
selects the candidate of minimum score with ties broken in favour of the
earliest-scanned candidate, and removes the selected triangle, returning
the remainder of the list.  The early exit on a zero score (visible in
selectLoop) never changes the selected candidate, which this theorem shows
is always the first candidate attaining the minimum score. -/
theorem SelectNextRoot_spec (l : List BSPTriNode) (hne : l ≠ [])
    (hsz : l.length < UINT_MAX) :
    ∃ i, i < l.length ∧
      SelectNextRoot l = some (l.getD i default, l.eraseIdx i) ∧
      (∀ j, j < l.length → rootScore l i ≤ rootScore l j) ∧
      (∀ j, j < i → rootScore l i < rootScore l j) := by
  have hn : 0 < l.length := List.length_pos.mpr hne
  have hs0 : rootScore l 0 < UINT_MAX :=
    lt_of_le_of_lt (rootScore_le l 0) hsz
  have hloop : ∃ b2, selectLoop l 0 UINT_MAX none = some b2 ∧ b2 < l.length ∧
      (∀ j, j < l.length → rootScore l b2 ≤ rootScore l j) ∧
      (∀ j, j < b2 → rootScore l b2 < rootScore l j) := by
    rw [selectLoop]
    simp only [hn, if_true, hs0, if_true]
    by_cases hz : rootScore l 0 = 0
    · simp only [hz, if_true]
      exact ⟨0, rfl, hn, fun j _ => by omega, fun j hj => by omega⟩
    · simp only [hz, if_false]
      refine selectLoop_some_spec l l.length 1 (rootScore l 0) 0 (by omega)
        (by omega) (by omega) rfl (by omega) (fun j hj => ?_) (fun j hj => by omega)
      have hj0 : j = 0 := by omega
      subst hj0
      exact le_refl _
  obtain ⟨b2, heq, hlt, hmin, hfirst⟩ := hloop
  exact ⟨b2, hlt, by simp [SelectNextRoot, heq], hmin, hfirst⟩

/-- Witness for claim C4: a concrete two-element working list. -/
theorem SelectNextRoot_spec_witness :
    ([⟨(⟨0, 0, 0⟩, ⟨1, 0, 0⟩, ⟨0, 1, 0⟩), ⟨0, 0, 1, 0⟩, 0,
        ((0, 0), (1, 0), (0, 1))⟩,
      ⟨(⟨0, 0, 1⟩, ⟨1, 0, 1⟩, ⟨0, 1, 1⟩), ⟨0, 0, 1, -1⟩, 0,
        ((0, 0), (1, 0), (0, 1))⟩] : List BSPTriNode) ≠ [] ∧
      ∃ i, i < 2 ∧
        SelectNextRoot [⟨(⟨0, 0, 0⟩, ⟨1, 0, 0⟩, ⟨0, 1, 0⟩), ⟨0, 0, 1, 0⟩, 0,
            ((0, 0), (1, 0), (0, 1))⟩,
          ⟨(⟨0, 0, 1⟩, ⟨1, 0, 1⟩, ⟨0, 1, 1⟩), ⟨0, 0, 1, -1⟩, 0,
            ((0, 0), (1, 0), (0, 1))⟩] =
          some ([⟨(⟨0, 0, 0⟩, ⟨1, 0, 0⟩, ⟨0, 1, 0⟩), ⟨0, 0, 1, 0⟩, 0,
              ((0, 0), (1, 0), (0, 1))⟩,
            ⟨(⟨0, 0, 1⟩, ⟨1, 0, 1⟩, ⟨0, 1, 1⟩), ⟨0, 0, 1, -1⟩, 0,
              ((0, 0), (1, 0), (0, 1))⟩].getD i default,
            [⟨(⟨0, 0, 0⟩, ⟨1, 0, 0⟩, ⟨0, 1, 0⟩), ⟨0, 0, 1, 0⟩, 0,
              ((0, 0), (1, 0), (0, 1))⟩,
            ⟨(⟨0, 0, 1⟩, ⟨1, 0, 1⟩, ⟨0, 1, 1⟩), ⟨0, 0, 1, -1⟩, 0,
              ((0, 0), (1, 0), (0, 1))⟩].eraseIdx i) := by
  refine ⟨by simp, ?_⟩
  have h := SelectNextRoot_spec [⟨(⟨0, 0, 0⟩, ⟨1, 0, 0⟩, ⟨0, 1, 0⟩), ⟨0, 0, 1, 0⟩, 0,
      ((0, 0), (1, 0), (0, 1))⟩,
    ⟨(⟨0, 0, 1⟩, ⟨1, 0, 1⟩, ⟨0, 1, 1⟩), ⟨0, 0, 1, -1⟩, 0,
      ((0, 0), (1, 0), (0, 1))⟩] (by simp) (by norm_num [UINT_MAX])
  obtain ⟨i, hi, heq, _, _⟩ := h
  exact ⟨i, by simpa using hi, heq⟩

/-- Run-time representation of a GLD indexed mesh (gld.h, GLData), with the
GLfloat tables idealised as rationals.  Texture map names are byte strings.
triFaces holds, per texture, the flat list of vertex indices (three per
triangle). -/
structure GLDataQ where
  nMaps : ℕ
  mapNames : List (List ℕ)
  mapTriNums : List ℕ
  nVertices : ℕ
  vertCoords : List ℚ
  texCoords : List ℚ
  minX : ℚ
  maxX : ℚ
  minY : ℚ
  maxY : ℚ
  minZ : ℚ
  maxZ : ℚ
  numTri : ℕ
  triFaces : List (List ℕ)
deriving DecidableEq, Repr, Inhabited

/-- The DOT macro of coldet.c. -/
def vdot (a b : Vec3) : ℚ := a.x * b.x + a.y * b.y + a.z * b.z

/-- The CROSS macro of coldet.c. -/
def vcross (a b : Vec3) : Vec3 :=
  ⟨a.y * b.z - a.z * b.y, a.z * b.x - a.x * b.z, a.x * b.y - a.y * b.x⟩

/-- The SUB macro of coldet.c. -/
def vsub (a b : Vec3) : Vec3 := ⟨a.x - b.x, a.y - b.y, a.z - b.z⟩

/-- intersectsFace (coldet.c): Moller-Trumbore ray/triangle intersection with
the backface-culling branch omitted, as in the source.  Returns (t, u, v) on
an intersection, none otherwise. -/
def intersectsFace (orig dir vert0 vert1 vert2 : Vec3) : Option (ℚ × ℚ × ℚ) :=
  let edge1 := vsub vert1 vert0
  let edge2 := vsub vert2 vert0
  let pVec := vcross dir edge2
  let det := vdot edge1 pVec
  if -FLT_EPSILON < det ∧ det < FLT_EPSILON then none
  else
    let invDet := 1 / det
    let tVec := vsub orig vert0
    let u := vdot tVec pVec * invDet
    if u < 0 ∨ u > 1 then none
    else
      let qVec := vcross tVec edge1
      let v := vdot dir qVec * invDet
      if v < 0 ∨ u + v > 1 then none
      else some (vdot edge2 qVec * invDet, u, v)

/-- Vertex number i of the shared vertex coordinate table (coldet.c reads
vertCoords[3*i .. 3*i+2]; out-of-range reads, which the C code never checks,
are modelled as 0). -/
def meshVert (vc : List ℚ) (i : ℕ) : Vec3 :=
  ⟨vc.getD (3 * i) 0, vc.getD (3 * i + 1) 0, vc.getD (3 * i + 2) 0⟩

/-- One iteration of the triangle loop of hasCollision (coldet.c): test
triangle j of one texture group and keep the nearest admissible hit. -/
def scanTriStep (fromPt dir : Vec3) (dirMag : ℚ) (vc : List ℚ)
    (faces : List ℕ) (acc : Bool × ℚ) (j : ℕ) : Bool × ℚ :=
  let v0 := meshVert vc (faces.getD (3 * j) 0)
  let v1 := meshVert vc (faces.getD (3 * j + 1) 0)
  let v2 := meshVert vc (faces.getD (3 * j + 2) 0)
  match intersectsFace fromPt dir v0 v1 v2 with
  | some (tmpT, _, _) =>
    if 0 ≤ tmpT ∧ tmpT < acc.2 ∧ tmpT ≤ dirMag then (true, tmpT) else acc
  | none => acc

/-- hasCollision (coldet.c): test the segment from fromPt to toPt against
every triangle of the mesh and report the nearest hit distance (initialised
to FLT_MAX).  The C code computes dirMag as the square root of the squared
length of toPt - fromPt; a rational square root is irrational in general, so
dirMag is received here as an argument, which theorems constrain by
0 ≤ dirMag and dirMag * dirMag = squared length (this determines it
uniquely, and makes the source test dirMag > 0.0 equivalent to the model
test).  When dirMag = 0 the source returns GL_TRUE before the triangle loop
runs; the scan below is then never entered, whatever the mesh. -/
def hasCollision (model : GLDataQ) (fromPt toPt : Vec3) (dirMag : ℚ) :
    Bool × ℚ :=
  let d : Vec3 := vsub toPt fromPt
  if dirMag > 0 then
    let dir : Vec3 := ⟨d.x / dirMag, d.y / dirMag, d.z / dirMag⟩
    (List.range model.nMaps).foldl
      (fun acc i =>
        (List.range (model.mapTriNums.getD i 0)).foldl
          (scanTriStep fromPt dir dirMag model.vertCoords
            (model.triFaces.getD i [])) acc)
      (false, FLT_MAX)
  else (true, FLT_MAX)

/-- Claim C8: for every mesh and every pair of points with a zero movement
vector, hasCollision reports a hit (with the distance left at its FLT_MAX
initialisation) without testing any triangle of the mesh: the conclusion
holds for every mesh whatsoever because the triangle scan is never
entered. -/
theorem hasCollision_zero_movement (model : GLDataQ) (fromPt toPt : Vec3)
    (dirMag : ℚ)
    (hx : toPt.x - fromPt.x = 0) (hy : toPt.y - fromPt.y = 0)
    (hz : toPt.z - fromPt.z = 0) (_hnn : 0 ≤ dirMag)
    (hmag : dirMag * dirMag =
      (toPt.x - fromPt.x) * (toPt.x - fromPt.x) +
        (toPt.y - fromPt.y) * (toPt.y - fromPt.y) +
        (toPt.z - fromPt.z) * (toPt.z - fromPt.z)) :
    hasCollision model fromPt toPt dirMag = (true, FLT_MAX) := by
  have h0 : dirMag = 0 := by
    have : dirMag * dirMag = 0 := by rw [hmag, hx, hy, hz]; ring
    exact mul_self_eq_zero.mp this
  simp [hasCollision, h0]

/-- Witness for claim C8 at a one-triangle mesh and a degenerate segment. -/
theorem hasCollision_zero_movement_witness :
    hasCollision ⟨1, [[97]], [1], 3,
        [0, 0, 0, 2, 0, 0, 0, 2, 0], [0, 0, 1, 0, 0, 1],
        0, 2, 0, 2, 0, 0, 1, [[0, 1, 2]]⟩
      ⟨1 / 2, 1 / 2, 1⟩ ⟨1 / 2, 1 / 2, 1⟩ 0 = (true, FLT_MAX) := by
  exact hasCollision_zero_movement _ _ _ _ (by norm_num) (by norm_num)
    (by norm_num) (by norm_num) (by norm_num)

/-- Vertex coordinate folding tolerance of the mesh builder
(gld.h, GLD_VERT_ORD_EPSILON = 0.0011276372445). -/
def GLD_VERT_ORD_EPSILON : ℚ := 11276372445 / 10000000000000

/-- Texture coordinate folding tolerance of the mesh builder
(gld.h, GLD_TEX_ORD_EPSILON = 1/256). -/
def GLD_TEX_ORD_EPSILON : ℚ := 1 / 256

/-- The tolerance match of the vertex folding loop of GenGLData (gld.c):
entry k of the tables is close enough to the pair (V, T) when all five
coordinates agree within their tolerances. -/
def gldVertMatch (vc tc : List ℚ) (k : ℕ) (V : Vec3) (T : ℚ × ℚ) : Prop :=
  fabs (vc.getD (3 * k) 0 - V.x) ≤ GLD_VERT_ORD_EPSILON ∧
    fabs (vc.getD (3 * k + 1) 0 - V.y) ≤ GLD_VERT_ORD_EPSILON ∧
    fabs (vc.getD (3 * k + 2) 0 - V.z) ≤ GLD_VERT_ORD_EPSILON ∧
    fabs (tc.getD (2 * k) 0 - T.1) ≤ GLD_TEX_ORD_EPSILON ∧
    fabs (tc.getD (2 * k + 1) 0 - T.2) ≤ GLD_TEX_ORD_EPSILON

instance (vc tc : List ℚ) (k : ℕ) (V : Vec3) (T : ℚ × ℚ) :
    Decidable (gldVertMatch vc tc k V T) := by
  unfold gldVertMatch
  infer_instance

/-- The inner search loop of the vertex folding pass of GenGLData (gld.c):
starting at entry k with gas entries left to scan (the loop bound
k < nVertices of the source is carried here as the countdown
gas = nVertices - k), return the first matching entry, or k + gas (that is,
nVertices) when none of the scanned entries matches. -/
def findVertScan (vc tc : List ℚ) (V : Vec3) (T : ℚ × ℚ) :
    ℕ → ℕ → ℕ
  | 0, k => k
  | gas + 1, k =>
    if gldVertMatch vc tc k V T then k else findVertScan vc tc V T gas (k + 1)

/-- Mutable state of GenGLData (gld.c) while it scans the input triangles:
the growing vertex tables, the bounds accumulators (initialised to FLT_MAX
and FLT_MIN exactly as the source), the per-texture counters and index
arrays, and the skipped-triangles flag. -/
structure GenState where
  nVertices : ℕ
  vertCoords : List ℚ
  texCoords : List ℚ
  minX : ℚ
  maxX : ℚ
  minY : ℚ
  maxY : ℚ
  minZ : ℚ
  maxZ : ℚ
  mapTriNums : List ℕ
  triFaces : List (List ℕ)
  numTri : ℕ
  skippedTris : Bool
deriving DecidableEq, Repr, Inhabited

/-- Vertex folding step of GenGLData (gld.c): look the pair (V, T) up in the
shared table; on a miss, append it and update the model bounds. -/
def foldVertex (st : GenState) (V : Vec3) (T : ℚ × ℚ) : ℕ × GenState :=
  let k := findVertScan st.vertCoords st.texCoords V T st.nVertices 0
  if k < st.nVertices then (k, st)
  else
    (k, { st with
      nVertices := st.nVertices + 1
      vertCoords := st.vertCoords ++ [V.x, V.y, V.z]
      texCoords := st.texCoords ++ [T.1, T.2]
      minX := if V.x < st.minX then V.x else st.minX
      maxX := if V.x > st.maxX then V.x else st.maxX
      minY := if V.y < st.minY then V.y else st.minY
      maxY := if V.y > st.maxY then V.y else st.maxY
      minZ := if V.z < st.minZ then V.z else st.minZ
      maxZ := if V.z > st.maxZ then V.z else st.maxZ })

/-- Processing of input triangle i by the main loop of GenGLData (gld.c):
fold the three vertices through the shared table, drop the triangle when two
indices coincide (setting the skipped flag), otherwise append its indices to
the index array of its texture. -/
def foldTri (triVerts triTexCoords : List ℚ) (texIndices : List ℕ)
    (st : GenState) (i : ℕ) : GenState :=
  let tIndex := texIndices.getD i 0
  let V0 : Vec3 := ⟨triVerts.getD (9 * i) 0, triVerts.getD (9 * i + 1) 0,
    triVerts.getD (9 * i + 2) 0⟩
  let V1 : Vec3 := ⟨triVerts.getD (9 * i + 3) 0, triVerts.getD (9 * i + 4) 0,
    triVerts.getD (9 * i + 5) 0⟩
  let V2 : Vec3 := ⟨triVerts.getD (9 * i + 6) 0, triVerts.getD (9 * i + 7) 0,
    triVerts.getD (9 * i + 8) 0⟩
  let T0 : ℚ × ℚ := (triTexCoords.getD (6 * i) 0, triTexCoords.getD (6 * i + 1) 0)
  let T1 : ℚ × ℚ := (triTexCoords.getD (6 * i + 2) 0, triTexCoords.getD (6 * i + 3) 0)
  let T2 : ℚ × ℚ := (triTexCoords.getD (6 * i + 4) 0, triTexCoords.getD (6 * i + 5) 0)
  let r0 := foldVertex st V0 T0
  let r1 := foldVertex r0.2 V1 T1
  let r2 := foldVertex r1.2 V2 T2
  let st3 := r2.2
  if r0.1 = r1.1 ∨ r1.1 = r2.1 ∨ r2.1 = r0.1 then
    { st3 with skippedTris := true }
  else
    { st3 with
      triFaces := st3.triFaces.set tIndex
        ((st3.triFaces.getD tIndex []) ++ [r0.1, r1.1, r2.1])
      mapTriNums := st3.mapTriNums.set tIndex
        (st3.mapTriNums.getD tIndex 0 + 1)
      numTri := st3.numTri + 1 }

/-- First pass of GenGLData (gld.c): scan texIndices[0 .. nTri), returning
false at the first out-of-range texture index.  (The per-texture totals that
this pass also accumulates are reset before the main loop recomputes them,
so only the bail-out is observable.) -/
def texIndexScan (nMaps nTri : ℕ) (ti : List ℕ) (i : ℕ) : Bool :=
  if i < nTri then
    if nMaps ≤ ti.getD i 0 then false else texIndexScan nMaps nTri ti (i + 1)
  else true
termination_by nTri - i
decreasing_by omega

/-- GenGLData (gld.c): build an indexed mesh from a triangle soup.  Null
input pointers are modelled as none arguments; the function returns none
exactly where the source returns NULL (failed sanity check or an
out-of-range texture index).  The final realloc calls of the source only
trim allocations and do not change the abstract state. -/
def GenGLData (nTri : ℕ) (triVerts : Option (List ℚ))
    (texIndices : Option (List ℕ)) (triTexCoords : Option (List ℚ))
    (nMaps : ℕ) (texMapNames : Option (List (List ℕ))) : Option GLDataQ :=
  match triVerts, texIndices, triTexCoords, texMapNames with
  | some tv, some ti, some ttc, some names =>
    if nTri = 0 ∨ nMaps = 0 then none
    else if texIndexScan nMaps nTri ti 0 = false then none
    else
      let st0 : GenState :=
        ⟨0, [], [], FLT_MAX, FLT_MIN, FLT_MAX, FLT_MIN, FLT_MAX, FLT_MIN,
          List.replicate nMaps 0, List.replicate nMaps [], 0, false⟩
      let st := (List.range nTri).foldl (foldTri tv ttc ti) st0
      some ⟨nMaps, names, st.mapTriNums, st.nVertices, st.vertCoords,
        st.texCoords, st.minX, st.maxX, st.minY, st.maxY, st.minZ, st.maxZ,
        st.numTri, st.triFaces⟩
  | _, _, _, _ => none

/-- Claim C10: GenGLData returns NULL (none), rather than an empty mesh,
whenever nTri = 0, nMaps = 0, or any of the four input pointers is null. -/
theorem genGLData_sanity_check (nTri nMaps : ℕ) (triVerts : Option (List ℚ))
    (texIndices : Option (List ℕ)) (triTexCoords : Option (List ℚ))
    (texMapNames : Option (List (List ℕ)))
    (h : nTri = 0 ∨ nMaps = 0 ∨ triVerts = none ∨ texIndices = none ∨
      triTexCoords = none ∨ texMapNames = none) :
    GenGLData nTri triVerts texIndices triTexCoords nMaps texMapNames = none := by
  cases triVerts with
  | none => rfl
  | some tv =>
    cases texIndices with
    | none => rfl
    | some ti =>
      cases triTexCoords with
      | none => rfl
      | some ttc =>
        cases texMapNames with
        | none => rfl
        | some names =>
          have h2 : nTri = 0 ∨ nMaps = 0 := by
            rcases h with h | h | h | h | h | h
            · exact Or.inl h
            · exact Or.inr h
            all_goals simp at h
          simp only [GenGLData]
          rw [if_pos h2]

/-- Witness for claim C10: zero triangles with otherwise valid inputs. -/
theorem genGLData_sanity_check_witness :
    GenGLData 0 (some [0, 0, 0, 1, 0, 0, 0, 1, 0]) (some [0])
      (some [0, 0, 1, 0, 0, 1]) 1 (some [[97]]) = none :=
  genGLData_sanity_check 0 1 _ _ _ _ (Or.inl rfl)

theorem texIndexScan_false (nMaps nTri : ℕ) (ti : List ℕ) (fuel : ℕ) :
    ∀ j, nTri - j ≤ fuel → (∃ i, j ≤ i ∧ i < nTri ∧ nMaps ≤ ti.getD i 0) →
      texIndexScan nMaps nTri ti j = false := by
  induction fuel with
  | zero =>
    intro j hfuel ⟨i, hji, hin, _⟩
    omega
  | succ fuel ih =>
    intro j hfuel ⟨i, hji, hin, hbad⟩
    rw [texIndexScan]
    have hjn : j < nTri := by omega
    simp only [hjn, if_true]
    by_cases hb : nMaps ≤ ti.getD j 0
    · rw [if_pos hb]
    · simp only [hb, if_false]
      refine ih (j + 1) (by omega) ⟨i, ?_, hin, hbad⟩
      rcases Nat.eq_or_lt_of_le hji with h | h
      · subst h
        exact absurd hbad hb
      · omega

/-- Claim C9: for every input triangle soup in which some texture index with
position below nTri is at least nMaps, GenGLData returns NULL (none). -/
theorem genGLData_bad_tex_index (nTri nMaps : ℕ) (triVerts : Option (List ℚ))
    (triTexCoords : Option (List ℚ)) (texMapNames : Option (List (List ℕ)))
    (ti : List ℕ) (i : ℕ) (hi : i < nTri) (hbad : nMaps ≤ ti.getD i 0) :
    GenGLData nTri triVerts (some ti) triTexCoords nMaps texMapNames = none := by
  cases triVerts with
  | none => rfl
  | some tv =>
    cases triTexCoords with
    | none => rfl
    | some ttc =>
      cases texMapNames with
      | none => rfl
      | some names =>
        by_cases h2 : nTri = 0 ∨ nMaps = 0
        · simp only [GenGLData]
          rw [if_pos h2]
        · have hscan : texIndexScan nMaps nTri ti 0 = false :=
            texIndexScan_false nMaps nTri ti nTri 0 (by omega) ⟨i, by omega, hi, hbad⟩
          simp only [GenGLData]
          rw [if_neg h2, if_pos hscan]

/-- Witness for claim C9: one triangle whose texture index 5 is out of range
for a single-texture model. -/
theorem genGLData_bad_tex_index_witness :
    GenGLData 1 (some [0, 0, 0, 1, 0, 0, 0, 1, 0]) (some [5])
      (some [0, 0, 1, 0, 0, 1]) 1 (some [[97]]) = none :=
  genGLData_bad_tex_index 1 1 _ _ _ [5] 0 (by omega) (by norm_num)

/-- The number of vertex definitions per block during refactoring
(bspc.c, DEFS_BLK_SIZE). -/
def DEFS_BLK_SIZE : ℕ := 200

/-- Vertex coordinate folding tolerance of the BSP canonicalizer
(bsp.h, BSP_VERT_ORD_EPSILON = 0.0011276372445). -/
def BSP_VERT_ORD_EPSILON : ℚ := 11276372445 / 10000000000000

/-- Texture coordinate folding tolerance of the BSP canonicalizer
(bsp.h, BSP_TEX_ORD_EPSILON = 1/256). -/
def BSP_TEX_ORD_EPSILON : ℚ := 1 / 256

/-- One record of the shared vertex definition table of the BSP
canonicalizer (bspc.c, one (V, T) slot of a VertDefs block). -/
abbrev VertDef := Vec3 × (ℚ × ℚ)

/-- The tolerance match of GetVertDefIndex (bspc.c): a table entry matches
the pair (v, t) when all five coordinates agree within their tolerances. -/
def vertDefMatch (e : VertDef) (v : Vec3) (t : ℚ × ℚ) : Prop :=
  fabs (e.1.x - v.x) ≤ BSP_VERT_ORD_EPSILON ∧
    fabs (e.1.y - v.y) ≤ BSP_VERT_ORD_EPSILON ∧
    fabs (e.1.z - v.z) ≤ BSP_VERT_ORD_EPSILON ∧
    fabs (e.2.1 - t.1) ≤ BSP_TEX_ORD_EPSILON ∧
    fabs (e.2.2 - t.2) ≤ BSP_TEX_ORD_EPSILON

instance (e : VertDef) (v : Vec3) (t : ℚ × ℚ) :
    Decidable (vertDefMatch e v t) := by
  unfold vertDefMatch
  infer_instance

/-- The scan of one VertDefs block by GetVertDefIndex (bspc.c): position of
the first matching entry within the block and its canonical position, or
none. -/
def findInBlock (v : Vec3) (t : ℚ × ℚ) : List VertDef → Option (ℕ × Vec3)
  | [] => none
  | e :: rest =>
    if vertDefMatch e v t then some (0, e.1)
    else (findInBlock v t rest).map (fun p => (p.1 + 1, p.2))

/-- Outcome of walking the block chain in GetVertDefIndex (bspc.c): a match
found (global index and canonical position, chain unchanged), an append into
the first block with free space (global index and updated chain), or the
chain exhausted with every block full (total entry count, so that the caller
allocates a fresh block). -/
inductive ChainResult where
  | found (idx : ℕ) (resV : Vec3)
  | appended (idx : ℕ) (blocks2 : List (List VertDef))
  | exhausted (count : ℕ)
deriving Repr

/-- The chain walk of GetVertDefIndex (bspc.c): scan each block for a match,
append into the first block that has free space, or fall off the end. -/
def gvdiChain (v : Vec3) (t : ℚ × ℚ) (acc : ℕ) :
    List (List VertDef) → ChainResult
  | [] => .exhausted acc
  | blk :: rest =>
    match findInBlock v t blk with
    | some p => .found (acc + p.1) p.2
    | none =>
      if blk.length < DEFS_BLK_SIZE then
        .appended (acc + blk.length) ((blk ++ [(v, t)]) :: rest)
      else
        match gvdiChain v t (acc + blk.length) rest with
        | .found i p => .found i p
        | .appended i bs => .appended i (blk :: bs)
        | .exhausted c => .exhausted c

/-- Process-scoped state of the BSP canonicalizer (bspc.c globals
vertDefsPtr, numVertDefs and the bounds accumulators minX .. maxZ). -/
structure VertState where
  blocks : List (List VertDef)
  numVertDefs : ℕ
  minX : ℚ
  maxX : ℚ
  minY : ℚ
  maxY : ℚ
  minZ : ℚ
  maxZ : ℚ
deriving Repr, Inhabited

/-- The state of the canonicalizer at the start of GenBSPTreeData (bspc.c):
no blocks, and the bounds accumulators at FLT_MAX / FLT_MIN. -/
def initVertState : VertState :=
  ⟨[], 0, FLT_MAX, FLT_MIN, FLT_MAX, FLT_MIN, FLT_MAX, FLT_MIN⟩

/-- GetVertDefIndex (bspc.c): fold the pair (v, t) into the shared table.
Returns the 16-bit index of the entry (kept as ℕ; the Uint16 wrap past
65535 entries is outside the documented capacity and is not modelled), the
canonical position to be written back into the triangle, and the updated
state.  The bounds accumulators are updated exactly when a new entry is
created. -/
def GetVertDefIndex (st : VertState) (v : Vec3) (t : ℚ × ℚ) :
    ℕ × Vec3 × VertState :=
  match gvdiChain v t 0 st.blocks with
  | .found idx resV => (idx, resV, st)
  | .appended idx blocks2 =>
    (idx, v, { st with
      blocks := blocks2
      numVertDefs := st.numVertDefs + 1
      minX := if v.x < st.minX then v.x else st.minX
      maxX := if v.x > st.maxX then v.x else st.maxX
      minY := if v.y < st.minY then v.y else st.minY
      maxY := if v.y > st.maxY then v.y else st.maxY
      minZ := if v.z < st.minZ then v.z else st.minZ
      maxZ := if v.z > st.maxZ then v.z else st.maxZ })
  | .exhausted cnt =>
    (cnt, v, { st with
      blocks := st.blocks ++ [[(v, t)]]
      numVertDefs := st.numVertDefs + 1
      minX := if v.x < st.minX then v.x else st.minX
      maxX := if v.x > st.maxX then v.x else st.maxX
      minY := if v.y < st.minY then v.y else st.minY
      maxY := if v.y > st.maxY then v.y else st.maxY
      minZ := if v.z < st.minZ then v.z else st.minZ
      maxZ := if v.z > st.maxZ then v.z else st.maxZ })

/-- The flattened contents of the shared vertex table, in index order. -/
def vertEntries (st : VertState) : List VertDef := st.blocks.flatten

/-- Fold a sequence of (position, texture) pairs through GetVertDefIndex. -/
def foldVertDefs (st : VertState) (ps : List VertDef) : VertState :=
  ps.foldl (fun s p => (GetVertDefIndex s p.1 p.2).2.2) st

/-- Separation of two table records: at least one of the five coordinates
differs by strictly more than its tolerance.  This is the negation of the
tolerance match of GetVertDefIndex. -/
def vertDefSep (a b : VertDef) : Prop :=
  BSP_VERT_ORD_EPSILON < fabs (a.1.x - b.1.x) ∨
    BSP_VERT_ORD_EPSILON < fabs (a.1.y - b.1.y) ∨
    BSP_VERT_ORD_EPSILON < fabs (a.1.z - b.1.z) ∨
    BSP_TEX_ORD_EPSILON < fabs (a.2.1 - b.2.1) ∨
    BSP_TEX_ORD_EPSILON < fabs (a.2.2 - b.2.2)

theorem fabs_sub_comm (a b : ℚ) : fabs (a - b) = fabs (b - a) := by
  unfold fabs
  rcases lt_trichotomy a b with h | h | h
  · rw [if_pos (by linarith), if_neg (by linarith)]
    ring
  · subst h
    simp
  · rw [if_neg (by linarith), if_pos (by linarith)]
    ring

theorem vertDefSep_symm {a b : VertDef} (h : vertDefSep a b) : vertDefSep b a := by
  unfold vertDefSep at h ⊢
  rcases h with h | h | h | h | h
  · exact Or.inl (by rwa [fabs_sub_comm])
  · exact Or.inr (Or.inl (by rwa [fabs_sub_comm]))
  · exact Or.inr (Or.inr (Or.inl (by rwa [fabs_sub_comm])))
  · exact Or.inr (Or.inr (Or.inr (Or.inl (by rwa [fabs_sub_comm]))))
  · exact Or.inr (Or.inr (Or.inr (Or.inr (by rwa [fabs_sub_comm]))))

theorem not_vertDefMatch_sep {e : VertDef} {v : Vec3} {t : ℚ × ℚ}
    (h : ¬ vertDefMatch e v t) : vertDefSep e (v, t) := by
  unfold vertDefMatch at h
  unfold vertDefSep
  push_neg at h
  by_cases h1 : fabs (e.1.x - v.x) ≤ BSP_VERT_ORD_EPSILON
  · by_cases h2 : fabs (e.1.y - v.y) ≤ BSP_VERT_ORD_EPSILON
    · by_cases h3 : fabs (e.1.z - v.z) ≤ BSP_VERT_ORD_EPSILON
      · by_cases h4 : fabs (e.2.1 - t.1) ≤ BSP_TEX_ORD_EPSILON
        · exact Or.inr (Or.inr (Or.inr (Or.inr (lt_of_not_le
            (fun hc => absurd (h h1 h2 h3 h4) (not_lt_of_le hc))))))
        · exact Or.inr (Or.inr (Or.inr (Or.inl (lt_of_not_le h4))))
      · exact Or.inr (Or.inr (Or.inl (lt_of_not_le h3)))
    · exact Or.inr (Or.inl (lt_of_not_le h2))
  · exact Or.inl (lt_of_not_le h1)

theorem findInBlock_none_no_match {v : Vec3} {t : ℚ × ℚ} :
    ∀ {blk : List VertDef}, findInBlock v t blk = none →
      ∀ e ∈ blk, ¬ vertDefMatch e v t := by
  intro blk
  induction blk with
  | nil => intro _ e he; exact absurd he (List.not_mem_nil e)
  | cons hd tl ih =>
    intro hnone e he
    rw [findInBlock] at hnone
    by_cases hm : vertDefMatch hd v t
    · rw [if_pos hm] at hnone
      exact absurd hnone (by simp)
    · rw [if_neg hm] at hnone
      rcases List.mem_cons.mp he with h | h
      · subst h; exact hm
      · refine ih ?_ e h
        cases hfi : findInBlock v t tl with
        | none => rfl
        | some p => rw [hfi] at hnone; simp at hnone

/-- Structural characterisation of an append outcome of the chain walk: the
entry lands at the end of the first block with free space, every earlier
block is full and was completely scanned without a match, and the receiving
block was scanned without a match. -/
theorem gvdiChain_appended_spec (v : Vec3) (t : ℚ × ℚ) :
    ∀ (blocks : List (List VertDef)) (acc idx : ℕ)
      (blocks2 : List (List VertDef)),
      gvdiChain v t acc blocks = .appended idx blocks2 →
      ∃ pre blk rest, blocks = pre ++ blk :: rest ∧
        blocks2 = pre ++ (blk ++ [(v, t)]) :: rest ∧
        blk.length < DEFS_BLK_SIZE ∧
        (∀ b ∈ pre, ¬ b.length < DEFS_BLK_SIZE) ∧
        (∀ b ∈ pre, ∀ e ∈ b, ¬ vertDefMatch e v t) ∧
        (∀ e ∈ blk, ¬ vertDefMatch e v t) := by
  intro blocks
  induction blocks with
  | nil => intro acc idx blocks2 h; rw [gvdiChain] at h; exact absurd h (by simp)
  | cons blk rest ih =>
    intro acc idx blocks2 h
    rw [gvdiChain] at h
    cases hfi : findInBlock v t blk with
    | some p => rw [hfi] at h; exact absurd h (by simp)
    | none =>
      rw [hfi] at h
      by_cases hlen : blk.length < DEFS_BLK_SIZE
      · rw [if_pos hlen] at h
        injection h with h1 h2
        refine ⟨[], blk, rest, by simp, by simp [h2.symm], hlen, by simp, by simp, ?_⟩
        exact findInBlock_none_no_match hfi
      · rw [if_neg hlen] at h
        cases hrec : gvdiChain v t (acc + blk.length) rest with
        | found i p => rw [hrec] at h; exact absurd h (by simp)
        | exhausted c => rw [hrec] at h; exact absurd h (by simp)
        | appended i bs =>
          rw [hrec] at h
          injection h with h1 h2
          obtain ⟨pre, blk2, rest2, hb, hb2, hl, hpre, hprem, hblkm⟩ :=
            ih (acc + blk.length) i bs hrec
          refine ⟨blk :: pre, blk2, rest2, by simp [hb], by simp [← h2, hb2], hl,
            ?_, ?_, hblkm⟩
          · intro b hbm
            rcases List.mem_cons.mp hbm with hh | hh
            · subst hh; exact hlen
            · exact hpre b hh
          · intro b hbm
            rcases List.mem_cons.mp hbm with hh | hh
            · subst hh; exact findInBlock_none_no_match hfi
            · exact hprem b hh

/-- Structural characterisation of an exhausted chain walk: every block is
full and was completely scanned without a match. -/
theorem gvdiChain_exhausted_spec (v : Vec3) (t : ℚ × ℚ) :
    ∀ (blocks : List (List VertDef)) (acc cnt : ℕ),
      gvdiChain v t acc blocks = .exhausted cnt →
      (∀ b ∈ blocks, ¬ b.length < DEFS_BLK_SIZE) ∧
        (∀ b ∈ blocks, ∀ e ∈ b, ¬ vertDefMatch e v t) := by
  intro blocks
  induction blocks with
  | nil => intro acc cnt _; exact ⟨by simp, by simp⟩
  | cons blk rest ih =>
    intro acc cnt h
    rw [gvdiChain] at h
    cases hfi : findInBlock v t blk with
    | some p => rw [hfi] at h; exact absurd h (by simp)
    | none =>
      rw [hfi] at h
      by_cases hlen : blk.length < DEFS_BLK_SIZE
      · rw [if_pos hlen] at h; exact absurd h (by simp)
      · rw [if_neg hlen] at h
        cases hrec : gvdiChain v t (acc + blk.length) rest with
        | found i p => rw [hrec] at h; exact absurd h (by simp)
        | appended i bs => rw [hrec] at h; exact absurd h (by simp)
        | exhausted c =>
          obtain ⟨hfull, hnm⟩ := ih (acc + blk.length) c hrec
          constructor
          · intro b hbm
            rcases List.mem_cons.mp hbm with hh | hh
            · subst hh; exact hlen
            · exact hfull b hh
          · intro b hbm
            rcases List.mem_cons.mp hbm with hh | hh
            · subst hh; exact findInBlock_none_no_match hfi
            · exact hnm b hh

/-- Reachability invariant of the shared table: every block except possibly
the last is full, and the flattened entries are pairwise separated. -/
def VertTableWF (st : VertState) : Prop :=
  (∀ b ∈ st.blocks.dropLast, b.length = DEFS_BLK_SIZE) ∧
    (∀ b ∈ st.blocks, b.length ≤ DEFS_BLK_SIZE) ∧
    List.Pairwise vertDefSep (vertEntries st)

theorem getVertDefIndex_preserves_WF (st : VertState) (v : Vec3) (t : ℚ × ℚ)
    (hwf : VertTableWF st) :
    VertTableWF (GetVertDefIndex st v t).2.2 := by
  obtain ⟨hfull, hle, hsep⟩ := hwf
  unfold GetVertDefIndex
  cases hch : gvdiChain v t 0 st.blocks with
  | found idx resV => exact ⟨hfull, hle, hsep⟩
  | appended idx blocks2 =>
    obtain ⟨pre, blk, rest, hb, hb2, hlen, _hpref, hprem, hblkm⟩ :=
      gvdiChain_appended_spec v t st.blocks 0 idx blocks2 hch
    have hrest : rest = [] := by
      cases hr : rest with
      | nil => rfl
      | cons r rs =>
        have hmem : blk ∈ st.blocks.dropLast := by
          rw [hb, hr, List.dropLast_append_of_ne_nil _ (by simp)]
          simp
        have := hfull blk hmem
        omega
    subst hrest
    have hpredrop : st.blocks.dropLast = pre := by
      rw [hb]
      exact List.dropLast_concat
    constructor
    · intro b hbm
      simp only [hb2, List.dropLast_concat] at hbm
      exact hfull b (hpredrop ▸ hbm)
    constructor
    · intro b hbm
      simp only [hb2] at hbm
      rcases List.mem_append.mp hbm with hh | hh
      · exact hle b (by rw [hb]; exact List.mem_append_left _ hh)
      · have : b = blk ++ [(v, t)] := by simpa using hh
        subst this
        simp only [List.length_append, List.length_singleton]
        omega
    · show List.Pairwise vertDefSep (blocks2.flatten)
      have hent : blocks2.flatten = (pre.flatten ++ blk) ++ [(v, t)] := by
        rw [hb2]
        simp [List.flatten_append]
      have hold : vertEntries st = pre.flatten ++ blk := by
        unfold vertEntries
        rw [hb]
        simp [List.flatten_append]
      rw [hent]
      rw [List.pairwise_append]
      refine ⟨hold ▸ hsep, List.pairwise_singleton _ _, ?_⟩
      intro a ha b hbm
      have hbvt : b = (v, t) := by simpa using hbm
      subst hbvt
      rcases List.mem_append.mp ha with hh | hh
      · obtain ⟨bb, hbb, habb⟩ := List.mem_flatten.mp hh
        exact not_vertDefMatch_sep (hprem bb hbb a habb)
      · exact not_vertDefMatch_sep (hblkm a hh)
  | exhausted cnt =>
    obtain ⟨hfull2, hnm⟩ := gvdiChain_exhausted_spec v t st.blocks 0 cnt hch
    constructor
    · intro b hbm
      rw [List.dropLast_concat] at hbm
      have h1 := hfull2 b hbm
      have h2 := hle b hbm
      omega
    constructor
    · intro b hbm
      rcases List.mem_append.mp hbm with hh | hh
      · exact hle b hh
      · have : b = [(v, t)] := by simpa using hh
        subst this
        simp [DEFS_BLK_SIZE]
    · show List.Pairwise vertDefSep ((st.blocks ++ [[(v, t)]]).flatten)
      have hent : (st.blocks ++ [[(v, t)]]).flatten =
          st.blocks.flatten ++ [(v, t)] := by
        simp [List.flatten_append]
      rw [hent, List.pairwise_append]
      refine ⟨hsep, List.pairwise_singleton _ _, ?_⟩
      intro a ha b hbm
      have hbvt : b = (v, t) := by simpa using hbm
      subst hbvt
      obtain ⟨bb, hbb, habb⟩ := List.mem_flatten.mp ha
      exact not_vertDefMatch_sep (hnm bb hbb a habb)

theorem foldVertDefs_WF (ps : List VertDef) :
    ∀ st, VertTableWF st → VertTableWF (foldVertDefs st ps) := by
  induction ps with
  | nil => intro st h; exact h
  | cons p rest ih =>
    intro st h
    exact ih _ (getVertDefIndex_preserves_WF st p.1 p.2 h)

theorem initVertState_WF : VertTableWF initVertState := by
  refine ⟨?_, ?_, ?_⟩ <;> simp [initVertState, vertEntries]

theorem listGetD_append_left (l l2 : List ℚ) (i : ℕ) (h : i < l.length) :
    (l ++ l2).getD i 0 = l.getD i 0 :=
  List.getD_append l l2 0 i h

theorem listGetD_append_right (l l2 : List ℚ) (m : ℕ) :
    (l ++ l2).getD (l.length + m) 0 = l2.getD m 0 := by
  simp [List.getD_eq_getElem?_getD, List.getElem?_append_right]

/-- Separation of entries i and j of the mesh builder's shared vertex
tables: at least one of the five coordinates differs by strictly more than
its tolerance.  This is the negation of the tolerance match of the folding
loop of GenGLData. -/
def meshEntrySep (vc tc : List ℚ) (i j : ℕ) : Prop :=
  GLD_VERT_ORD_EPSILON < fabs (vc.getD (3 * i) 0 - vc.getD (3 * j) 0) ∨
    GLD_VERT_ORD_EPSILON < fabs (vc.getD (3 * i + 1) 0 - vc.getD (3 * j + 1) 0) ∨
    GLD_VERT_ORD_EPSILON < fabs (vc.getD (3 * i + 2) 0 - vc.getD (3 * j + 2) 0) ∨
    GLD_TEX_ORD_EPSILON < fabs (tc.getD (2 * i) 0 - tc.getD (2 * j) 0) ∨
    GLD_TEX_ORD_EPSILON < fabs (tc.getD (2 * i + 1) 0 - tc.getD (2 * j + 1) 0)

theorem meshEntrySep_symm {vc tc : List ℚ} {i j : ℕ}
    (h : meshEntrySep vc tc i j) : meshEntrySep vc tc j i := by
  unfold meshEntrySep at h ⊢
  rcases h with h | h | h | h | h
  · exact Or.inl (by rwa [fabs_sub_comm])
  · exact Or.inr (Or.inl (by rwa [fabs_sub_comm]))
  · exact Or.inr (Or.inr (Or.inl (by rwa [fabs_sub_comm])))
  · exact Or.inr (Or.inr (Or.inr (Or.inl (by rwa [fabs_sub_comm]))))
  · exact Or.inr (Or.inr (Or.inr (Or.inr (by rwa [fabs_sub_comm]))))

/-- Invariant of the growing vertex tables of GenGLData: the flat tables
have their nominal lengths and all distinct entries are separated. -/
def GenTableWF (st : GenState) : Prop :=
  st.vertCoords.length = 3 * st.nVertices ∧
    st.texCoords.length = 2 * st.nVertices ∧
    ∀ i j, i < st.nVertices → j < st.nVertices → i ≠ j →
      meshEntrySep st.vertCoords st.texCoords i j

theorem findVertScan_le (vc tc : List ℚ) (V : Vec3) (T : ℚ × ℚ) :
    ∀ gas k, findVertScan vc tc V T gas k ≤ k + gas := by
  intro gas
  induction gas with
  | zero => intro k; rw [findVertScan]; omega
  | succ gas ih =>
    intro k
    rw [findVertScan]
    by_cases hm : gldVertMatch vc tc k V T
    · rw [if_pos hm]; omega
    · rw [if_neg hm]
      have := ih (k + 1)
      omega

theorem findVertScan_no_match (vc tc : List ℚ) (V : Vec3) (T : ℚ × ℚ) :
    ∀ gas k, findVertScan vc tc V T gas k = k + gas →
      ∀ m, k ≤ m → m < k + gas → ¬ gldVertMatch vc tc m V T := by
  intro gas
  induction gas with
  | zero => intro k _ m h1 h2; omega
  | succ gas ih =>
    intro k hfind m hkm hmk
    rw [findVertScan] at hfind
    by_cases hm : gldVertMatch vc tc k V T
    · rw [if_pos hm] at hfind; omega
    · rw [if_neg hm] at hfind
      rcases Nat.eq_or_lt_of_le hkm with h | h
      · subst h; exact hm
      · exact ih (k + 1) (by omega) m (by omega) (by omega)

theorem foldVertex_WF (st : GenState) (V : Vec3) (T : ℚ × ℚ)
    (hwf : GenTableWF st) : GenTableWF (foldVertex st V T).2 := by
  obtain ⟨hvl, htl, hsep⟩ := hwf
  unfold foldVertex
  by_cases hk : findVertScan st.vertCoords st.texCoords V T st.nVertices 0 <
      st.nVertices
  · rw [if_pos hk]
    exact ⟨hvl, htl, hsep⟩
  · rw [if_neg hk]
    have hkn : findVertScan st.vertCoords st.texCoords V T st.nVertices 0 =
        0 + st.nVertices := by
      have := findVertScan_le st.vertCoords st.texCoords V T st.nVertices 0
      omega
    have hnom0 := findVertScan_no_match st.vertCoords st.texCoords V T
      st.nVertices 0 hkn
    have hnom : ∀ m, 0 ≤ m → m < st.nVertices →
        ¬ gldVertMatch st.vertCoords st.texCoords m V T := by
      intro m h1 h2
      exact hnom0 m h1 (by omega)
    set n := st.nVertices with hn
    refine ⟨by simp [hvl]; ring, by simp [htl]; ring, ?_⟩
    have hnewv : ∀ c < 3, (st.vertCoords ++ [V.x, V.y, V.z]).getD (3 * n + c) 0 =
        [V.x, V.y, V.z].getD c 0 := by
      intro c _
      rw [← hvl, listGetD_append_right]
    have hnewt : ∀ c < 2, (st.texCoords ++ [T.1, T.2]).getD (2 * n + c) 0 =
        [T.1, T.2].getD c 0 := by
      intro c _
      rw [← htl, listGetD_append_right]
    have holdv : ∀ i < n, ∀ c < 3,
        (st.vertCoords ++ [V.x, V.y, V.z]).getD (3 * i + c) 0 =
          st.vertCoords.getD (3 * i + c) 0 := by
      intro i hi c hc
      exact listGetD_append_left _ _ _ (by omega)
    have holdt : ∀ i < n, ∀ c < 2,
        (st.texCoords ++ [T.1, T.2]).getD (2 * i + c) 0 =
          st.texCoords.getD (2 * i + c) 0 := by
      intro i hi c hc
      exact listGetD_append_left _ _ _ (by omega)
    have hsepnew : ∀ i < n, meshEntrySep (st.vertCoords ++ [V.x, V.y, V.z])
        (st.texCoords ++ [T.1, T.2]) i n := by
      intro i hi
      have hnm := hnom i (by omega) hi
      unfold gldVertMatch at hnm
      push_neg at hnm
      unfold meshEntrySep
      have e0 := holdv i hi 0 (by omega)
      have e1 := holdv i hi 1 (by omega)
      have e2 := holdv i hi 2 (by omega)
      have f0 := holdt i hi 0 (by omega)
      have f1 := holdt i hi 1 (by omega)
      have g0 := hnewv 0 (by omega)
      have g1 := hnewv 1 (by omega)
      have g2 := hnewv 2 (by omega)
      have j0 := hnewt 0 (by omega)
      have j1 := hnewt 1 (by omega)
      simp only [Nat.add_zero] at e0 f0 g0 j0
      rw [e0, e1, e2, f0, f1, g0, g1, g2, j0, j1]
      simp only [List.getD_cons_zero, List.getD_cons_succ]
      by_cases h1 : fabs (st.vertCoords.getD (3 * i) 0 - V.x) ≤
          GLD_VERT_ORD_EPSILON
      · by_cases h2 : fabs (st.vertCoords.getD (3 * i + 1) 0 - V.y) ≤
            GLD_VERT_ORD_EPSILON
        · by_cases h3 : fabs (st.vertCoords.getD (3 * i + 2) 0 - V.z) ≤
              GLD_VERT_ORD_EPSILON
          · by_cases h4 : fabs (st.texCoords.getD (2 * i) 0 - T.1) ≤
                GLD_TEX_ORD_EPSILON
            · exact Or.inr (Or.inr (Or.inr (Or.inr (lt_of_not_le
                (fun hc => absurd (hnm h1 h2 h3 h4) (not_lt_of_le hc))))))
            · exact Or.inr (Or.inr (Or.inr (Or.inl (lt_of_not_le h4))))
          · exact Or.inr (Or.inr (Or.inl (lt_of_not_le h3)))
        · exact Or.inr (Or.inl (lt_of_not_le h2))
      · exact Or.inl (lt_of_not_le h1)
    intro i j hi hj hij
    simp only at hi hj
    show meshEntrySep (st.vertCoords ++ [V.x, V.y, V.z])
      (st.texCoords ++ [T.1, T.2]) i j
    rcases Nat.lt_succ_iff_lt_or_eq.mp hi with hi2 | hi2 <;>
      rcases Nat.lt_succ_iff_lt_or_eq.mp hj with hj2 | hj2
    · have hold := hsep i j hi2 hj2 hij
      unfold meshEntrySep at hold ⊢
      have e0 : (st.vertCoords ++ [V.x, V.y, V.z]).getD (3 * i) 0 =
          st.vertCoords.getD (3 * i) 0 := listGetD_append_left _ _ _ (by omega)
      have e1 : (st.vertCoords ++ [V.x, V.y, V.z]).getD (3 * i + 1) 0 =
          st.vertCoords.getD (3 * i + 1) 0 := listGetD_append_left _ _ _ (by omega)
      have e2 : (st.vertCoords ++ [V.x, V.y, V.z]).getD (3 * i + 2) 0 =
          st.vertCoords.getD (3 * i + 2) 0 := listGetD_append_left _ _ _ (by omega)
      have e3 : (st.vertCoords ++ [V.x, V.y, V.z]).getD (3 * j) 0 =
          st.vertCoords.getD (3 * j) 0 := listGetD_append_left _ _ _ (by omega)
      have e4 : (st.vertCoords ++ [V.x, V.y, V.z]).getD (3 * j + 1) 0 =
          st.vertCoords.getD (3 * j + 1) 0 := listGetD_append_left _ _ _ (by omega)
      have e5 : (st.vertCoords ++ [V.x, V.y, V.z]).getD (3 * j + 2) 0 =
          st.vertCoords.getD (3 * j + 2) 0 := listGetD_append_left _ _ _ (by omega)
      have f0 : (st.texCoords ++ [T.1, T.2]).getD (2 * i) 0 =
          st.texCoords.getD (2 * i) 0 := listGetD_append_left _ _ _ (by omega)
      have f1 : (st.texCoords ++ [T.1, T.2]).getD (2 * i + 1) 0 =
          st.texCoords.getD (2 * i + 1) 0 := listGetD_append_left _ _ _ (by omega)
      have f2 : (st.texCoords ++ [T.1, T.2]).getD (2 * j) 0 =
          st.texCoords.getD (2 * j) 0 := listGetD_append_left _ _ _ (by omega)
      have f3 : (st.texCoords ++ [T.1, T.2]).getD (2 * j + 1) 0 =
          st.texCoords.getD (2 * j + 1) 0 := listGetD_append_left _ _ _ (by omega)
      rw [e0, e1, e2, e3, e4, e5, f0, f1, f2, f3]
      exact hold
    · subst hj2
      exact hsepnew i hi2
    · subst hi2
      exact meshEntrySep_symm (hsepnew j hj2)
    · omega

theorem foldTri_WF (tv ttc : List ℚ) (ti : List ℕ) (st : GenState) (i : ℕ)
    (hwf : GenTableWF st) : GenTableWF (foldTri tv ttc ti st i) := by
  have h1 := foldVertex_WF st
    ⟨tv.getD (9 * i) 0, tv.getD (9 * i + 1) 0, tv.getD (9 * i + 2) 0⟩
    (ttc.getD (6 * i) 0, ttc.getD (6 * i + 1) 0) hwf
  have h2 := foldVertex_WF _
    ⟨tv.getD (9 * i + 3) 0, tv.getD (9 * i + 4) 0, tv.getD (9 * i + 5) 0⟩
    (ttc.getD (6 * i + 2) 0, ttc.getD (6 * i + 3) 0) h1
  have h3 := foldVertex_WF _
    ⟨tv.getD (9 * i + 6) 0, tv.getD (9 * i + 7) 0, tv.getD (9 * i + 8) 0⟩
    (ttc.getD (6 * i + 4) 0, ttc.getD (6 * i + 5) 0) h2
  simp only [foldTri]
  split
  · exact ⟨h3.1, h3.2.1, h3.2.2⟩
  · exact ⟨h3.1, h3.2.1, h3.2.2⟩

theorem foldTris_WF (tv ttc : List ℚ) (ti : List ℕ) :
    ∀ (idxs : List ℕ) (st : GenState), GenTableWF st →
      GenTableWF (idxs.foldl (foldTri tv ttc ti) st) := by
  intro idxs
  induction idxs with
  | nil => intro st h; exact h
  | cons a rest ih =>
    intro st h
    exact ih _ (foldTri_WF tv ttc ti st a h)

/-- Claim C6: for every shared vertex table built by the BSP canonicalizer
(GetVertDefIndex, folded from the empty table over any input sequence) and
for every mesh produced by GenGLData, any two distinct table entries differ
by strictly more than the tolerance in at least one of the five coordinates
(positions against BSP_VERT_ORD_EPSILON = GLD_VERT_ORD_EPSILON =
0.0011276372445, texture coordinates against 1/256). -/
theorem sharedVertexTables_separated :
    (∀ ps : List VertDef, ∀ i j,
        i < (vertEntries (foldVertDefs initVertState ps)).length →
        j < (vertEntries (foldVertDefs initVertState ps)).length → i ≠ j →
        vertDefSep
          ((vertEntries (foldVertDefs initVertState ps)).getD i default)
          ((vertEntries (foldVertDefs initVertState ps)).getD j default)) ∧
    (∀ (nTri nMaps : ℕ) (tv ttc : List ℚ) (ti : List ℕ)
        (names : List (List ℕ)) (g : GLDataQ),
        GenGLData nTri (some tv) (some ti) (some ttc) nMaps (some names) =
          some g →
        ∀ i j, i < g.nVertices → j < g.nVertices → i ≠ j →
          meshEntrySep g.vertCoords g.texCoords i j) := by
  constructor
  · intro ps i j hi hj hij
    have hwf := foldVertDefs_WF ps initVertState initVertState_WF
    obtain ⟨_, _, hpw⟩ := hwf
    rcases Nat.lt_or_ge i j with h | h
    · rw [List.getD_eq_getElem _ _ hi, List.getD_eq_getElem _ _ hj]
      exact List.pairwise_iff_getElem.mp hpw i j hi hj h
    · have hji : j < i := by omega
      rw [List.getD_eq_getElem _ _ hi, List.getD_eq_getElem _ _ hj]
      exact vertDefSep_symm (List.pairwise_iff_getElem.mp hpw j i hj hi hji)
  · intro nTri nMaps tv ttc ti names g hg i j hi hj hij
    simp only [GenGLData] at hg
    split at hg
    · exact absurd hg (by simp)
    · split at hg
      · exact absurd hg (by simp)
      · have hwf := foldTris_WF tv ttc ti (List.range nTri)
          ⟨0, [], [], FLT_MAX, FLT_MIN, FLT_MAX, FLT_MIN, FLT_MAX, FLT_MIN,
            List.replicate nMaps 0, List.replicate nMaps [], 0, false⟩
          ⟨by simp, by simp, by intro a b ha _ _; simp at ha⟩
        obtain ⟨_, _, hpw⟩ := hwf
        injection hg with hg2
        subst hg2
        exact hpw i j hi hj hij

/-- Witness for claim C6: two far-apart inputs folded through the BSP
canonicalizer produce two separated table entries. -/
theorem sharedVertexTables_separated_witness :
    (0 : ℕ) ≠ 1 ∧
      vertDefSep
        ((vertEntries (foldVertDefs initVertState
          [(⟨0, 0, 0⟩, (0, 0)), (⟨1, 1, 1⟩, (0, 0))])).getD 0 default)
        ((vertEntries (foldVertDefs initVertState
          [(⟨0, 0, 0⟩, (0, 0)), (⟨1, 1, 1⟩, (0, 0))])).getD 1 default) := by
  have hlen : (vertEntries (foldVertDefs initVertState
      [(⟨0, 0, 0⟩, (0, 0)), (⟨1, 1, 1⟩, (0, 0))])).length = 2 := by
    norm_num [foldVertDefs, GetVertDefIndex, gvdiChain, findInBlock,
      vertDefMatch, fabs, initVertState, vertEntries, BSP_VERT_ORD_EPSILON,
      BSP_TEX_ORD_EPSILON, DEFS_BLK_SIZE]
  exact ⟨by omega,
    sharedVertexTables_separated.1 _ 0 1 (by omega) (by omega) (by omega)⟩

/-- A canonicalized, texture-mapped triangular face (bsp.h, BSPTriFace):
a texture index and three indices into the shared vertex table. -/
structure BSPTriFace where
  texIndex : ℕ
  vIndices : ℕ × ℕ × ℕ
deriving DecidableEq, Repr, Inhabited

/-- A node of the internal BSP tree (bspc.c, IntBSPTreeNode) as seen by the
canonicalization pass: the partition plane and the coplanar triangle list
(the numTri field of the C structure is the list length; the child subtrees
are processed by independent recursive calls and are not needed to state the
per-node properties). -/
structure IntBSPTreeNode where
  partition : BSPPlane
  tris : List BSPTriNode
deriving Repr, Inhabited

/-- A converted BSP tree node (bsp.h, BSPTree, one node): surviving face
count, face list and partition plane. -/
structure BSPTreeNodeQ where
  numTri : ℕ
  triDefs : List BSPTriFace
  partPlane : BSPPlane
deriving Repr, Inhabited

/-- The three sequential GetVertDefIndex calls of ConvIntBSPTree (bspc.c)
for one triangle: canonical indices, canonical vertices (resV) and the table
state after the three calls.  The table grows even when the triangle is
subsequently dropped, as in the source. -/
def canonTri (st : VertState) (tri : BSPTriNode) :
    (ℕ × ℕ × ℕ) × (Vec3 × Vec3 × Vec3) × VertState :=
  let r0 := GetVertDefIndex st tri.V.1 tri.T.1
  let r1 := GetVertDefIndex r0.2.2 tri.V.2.1 tri.T.2.1
  let r2 := GetVertDefIndex r1.2.2 tri.V.2.2 tri.T.2.2
  ((r0.1, r1.1, r2.1), (r0.2.1, r1.2.1, r2.2.1), r2.2.2)

/-- The coplanar-list loop of ConvIntBSPTree (bspc.c): fold each triangle
through the shared table, drop it when two canonical indices coincide or
the re-derived plane is degenerate (planeOf returns none), and otherwise
emit its face (recording the re-derived plane) and count it against its
texture.  GetPlaneForTri is the planeOf argument; see the header comment. -/
def convTris (planeOf : Vec3 × Vec3 × Vec3 → Option BSPPlane) :
    List BSPTriNode → VertState → List ℕ →
    List (BSPTriFace × BSPPlane) × VertState × List ℕ
  | [], st, tex => ([], st, tex)
  | tri :: rest, st, tex =>
    if (canonTri st tri).1.1 = (canonTri st tri).1.2.1 ∨
        (canonTri st tri).1.2.1 = (canonTri st tri).1.2.2 ∨
        (canonTri st tri).1.2.2 = (canonTri st tri).1.1 then
      convTris planeOf rest (canonTri st tri).2.2 tex
    else
      match planeOf (canonTri st tri).2.1 with
      | none => convTris planeOf rest (canonTri st tri).2.2 tex
      | some pl =>
        ((⟨tri.tIndex, (canonTri st tri).1⟩, pl) ::
            (convTris planeOf rest (canonTri st tri).2.2
              (tex.set tri.tIndex (tex.getD tri.tIndex 0 + 1))).1,
          (convTris planeOf rest (canonTri st tri).2.2
            (tex.set tri.tIndex (tex.getD tri.tIndex 0 + 1))).2)

/-- Conversion of one node by ConvIntBSPTree (bspc.c): the face list of the
survivors, numTri adjusted for the dropped triangles, and the partition
plane overwritten with the plane re-derived from the first surviving
triangle when there is one (the i = 0 branch of the source), or kept at the
construction plane when every triangle was dropped. -/
def ConvIntBSPNode (planeOf : Vec3 × Vec3 × Vec3 → Option BSPPlane)
    (node : IntBSPTreeNode) (st : VertState) (tex : List ℕ) :
    BSPTreeNodeQ × VertState × List ℕ :=
  let r := convTris planeOf node.tris st tex
  (⟨r.1.length, r.1.map Prod.fst,
    match r.1 with
    | [] => node.partition
    | (_, pl) :: _ => pl⟩, r.2)

/-- Drop test of the canonicalization pass, stated from the specification:
a triangle is dropped exactly when two of its three canonical vertex
indices are equal or the plane re-derived from its canonicalized vertices
is degenerate. -/
def droppedTri (planeOf : Vec3 × Vec3 × Vec3 → Option BSPPlane)
    (st : VertState) (tri : BSPTriNode) : Prop :=
  (canonTri st tri).1.1 = (canonTri st tri).1.2.1 ∨
    (canonTri st tri).1.2.1 = (canonTri st tri).1.2.2 ∨
    (canonTri st tri).1.2.2 = (canonTri st tri).1.1 ∨
    planeOf (canonTri st tri).2.1 = none

/-- Specification-side walk of a coplanar list: the faces of the triangles
that survive the drop test, each paired with its canonicalized vertices,
with the table state threaded exactly as the canonicalizer threads it. -/
def survivorsSpec (planeOf : Vec3 × Vec3 × Vec3 → Option BSPPlane) :
    List BSPTriNode → VertState →
    List (BSPTriFace × (Vec3 × Vec3 × Vec3))
  | [], _ => []
  | tri :: rest, st =>
    if (canonTri st tri).1.1 = (canonTri st tri).1.2.1 ∨
        (canonTri st tri).1.2.1 = (canonTri st tri).1.2.2 ∨
        (canonTri st tri).1.2.2 = (canonTri st tri).1.1 ∨
        planeOf (canonTri st tri).2.1 = none then
      survivorsSpec planeOf rest (canonTri st tri).2.2
    else (⟨tri.tIndex, (canonTri st tri).1⟩, (canonTri st tri).2.1) ::
      survivorsSpec planeOf rest (canonTri st tri).2.2

theorem convTris_matches_spec (planeOf : Vec3 × Vec3 × Vec3 → Option BSPPlane) :
    ∀ (tris : List BSPTriNode) (st : VertState) (tex : List ℕ),
      List.Forall₂
        (fun (a : BSPTriFace × BSPPlane)
            (b : BSPTriFace × (Vec3 × Vec3 × Vec3)) =>
          a.1 = b.1 ∧ planeOf b.2 = some a.2)
        (convTris planeOf tris st tex).1 (survivorsSpec planeOf tris st) := by
  intro tris
  induction tris with
  | nil =>
    intro st tex
    exact List.Forall₂.nil
  | cons tri rest ih =>
    intro st tex
    simp only [convTris, survivorsSpec]
    by_cases hdup : (canonTri st tri).1.1 = (canonTri st tri).1.2.1 ∨
        (canonTri st tri).1.2.1 = (canonTri st tri).1.2.2 ∨
        (canonTri st tri).1.2.2 = (canonTri st tri).1.1
    · rw [if_pos hdup, if_pos (by tauto)]
      exact ih _ _
    · rw [if_neg hdup]
      cases hpl : planeOf (canonTri st tri).2.1 with
      | none =>
        rw [if_pos (by tauto)]
        exact ih _ _
      | some pl =>
        have hnd : ¬ ((canonTri st tri).1.1 = (canonTri st tri).1.2.1 ∨
            (canonTri st tri).1.2.1 = (canonTri st tri).1.2.2 ∨
            (canonTri st tri).1.2.2 = (canonTri st tri).1.1 ∨
            (some pl : Option BSPPlane) = none) := by
          intro h
          rcases h with h | h | h | h
          · exact hdup (Or.inl h)
          · exact hdup (Or.inr (Or.inl h))
          · exact hdup (Or.inr (Or.inr h))
          · exact absurd h (by simp)
        rw [if_neg hnd]
        exact List.Forall₂.cons ⟨rfl, hpl⟩ (ih _ _)

/-- Claim C5: for every node processed by the canonicalization pass (with
GetPlaneForTri abstracted as planeOf), the surviving faces are exactly
those whose triangles pass the drop test of the specification; when at
least one triangle survives, the partition plane afterwards is the plane
re-derived (by planeOf) from the canonicalized vertices of the first
surviving triangle; and when no triangle survives, the node carries zero
triangles and keeps the original construction plane. -/
theorem convIntBSPNode_spec (planeOf : Vec3 × Vec3 × Vec3 → Option BSPPlane)
    (node : IntBSPTreeNode) (st : VertState) (tex : List ℕ) :
    ((ConvIntBSPNode planeOf node st tex).1.triDefs =
        (survivorsSpec planeOf node.tris st).map Prod.fst) ∧
      ((ConvIntBSPNode planeOf node st tex).1.numTri =
        (survivorsSpec planeOf node.tris st).length) ∧
      (∀ f v rest2, survivorsSpec planeOf node.tris st = (f, v) :: rest2 →
        planeOf v = some (ConvIntBSPNode planeOf node st tex).1.partPlane) ∧
      (survivorsSpec planeOf node.tris st = [] →
        (ConvIntBSPNode planeOf node st tex).1.numTri = 0 ∧
          (ConvIntBSPNode planeOf node st tex).1.partPlane = node.partition) := by
  have hfst : ∀ {l1 : List (BSPTriFace × BSPPlane)}
      {l2 : List (BSPTriFace × (Vec3 × Vec3 × Vec3))},
      List.Forall₂ (fun a b => a.1 = b.1 ∧ planeOf b.2 = some a.2) l1 l2 →
      l1.map Prod.fst = l2.map Prod.fst := by
    intro l1 l2 h
    induction h with
    | nil => rfl
    | cons hh _ ih2 => simp [ih2, hh.1]
  have hf := convTris_matches_spec planeOf node.tris st tex
  refine ⟨?_, ?_, ?_, ?_⟩
  · show (convTris planeOf node.tris st tex).1.map Prod.fst =
      (survivorsSpec planeOf node.tris st).map Prod.fst
    exact hfst hf
  · show (convTris planeOf node.tris st tex).1.length =
      (survivorsSpec planeOf node.tris st).length
    exact List.Forall₂.length_eq hf
  · intro f v rest2 hs
    rw [hs] at hf
    cases hconv : (convTris planeOf node.tris st tex).1 with
    | nil =>
      rw [hconv] at hf
      exact absurd (List.Forall₂.length_eq hf) (by simp)
    | cons a l =>
      rw [hconv] at hf
      cases hf with
      | cons h htl =>
        show planeOf v = some (match (convTris planeOf node.tris st tex).1 with
          | [] => node.partition
          | (_, pl) :: _ => pl)
        rw [hconv]
        obtain ⟨af, apl⟩ := a
        exact h.2
  · intro hs
    rw [hs] at hf
    have hlen := List.Forall₂.length_eq hf
    simp only [List.length_nil] at hlen
    have hnil : (convTris planeOf node.tris st tex).1 = [] :=
      List.length_eq_zero.mp hlen
    constructor
    · show (convTris planeOf node.tris st tex).1.length = 0
      exact hlen
    · show (match (convTris planeOf node.tris st tex).1 with
        | [] => node.partition
        | (_, pl) :: _ => pl) = node.partition
      rw [hnil]

/-- Witness for claim C5: with a plane deriver that reports every triangle
degenerate, the single coplanar triangle is dropped, and the node keeps its
construction plane with zero triangles. -/
theorem convIntBSPNode_spec_witness :
    survivorsSpec (fun _ => none)
        [⟨(⟨0, 0, 0⟩, ⟨1, 0, 0⟩, ⟨0, 1, 0⟩), ⟨0, 0, 1, 0⟩, 0,
          ((0, 0), (1, 0), (0, 1))⟩] initVertState = [] ∧
      (ConvIntBSPNode (fun _ => none)
        ⟨⟨0, 0, 1, 0⟩, [⟨(⟨0, 0, 0⟩, ⟨1, 0, 0⟩, ⟨0, 1, 0⟩), ⟨0, 0, 1, 0⟩, 0,
          ((0, 0), (1, 0), (0, 1))⟩]⟩ initVertState [0]).1.numTri = 0 ∧
      (ConvIntBSPNode (fun _ => none)
        ⟨⟨0, 0, 1, 0⟩, [⟨(⟨0, 0, 0⟩, ⟨1, 0, 0⟩, ⟨0, 1, 0⟩), ⟨0, 0, 1, 0⟩, 0,
          ((0, 0), (1, 0), (0, 1))⟩]⟩ initVertState [0]).1.partPlane =
        ⟨0, 0, 1, 0⟩ := by
  have hs : survivorsSpec (fun _ => none)
      [⟨(⟨0, 0, 0⟩, ⟨1, 0, 0⟩, ⟨0, 1, 0⟩), ⟨0, 0, 1, 0⟩, 0,
        ((0, 0), (1, 0), (0, 1))⟩] initVertState = [] := by
    rw [survivorsSpec, if_pos (by tauto), survivorsSpec]
  have hd := (convIntBSPNode_spec (fun _ => none)
    ⟨⟨0, 0, 1, 0⟩, [⟨(⟨0, 0, 0⟩, ⟨1, 0, 0⟩, ⟨0, 1, 0⟩), ⟨0, 0, 1, 0⟩, 0,
      ((0, 0), (1, 0), (0, 1))⟩]⟩ initVertState [0]).2.2.2 hs
  exact ⟨hs, hd.1, hd.2⟩

/-- Reader of one byte from a stream (fread of 1 byte in the sources); none
models hitting the end of the stream, where the C code would leave its
buffer unread. -/
def readU8 : List ℕ → Option (ℕ × List ℕ)
  | b :: r => some (b, r)
  | [] => none

/-- Little-endian bytes of a 16-bit value as fwrite emits them. -/
def writeU16 (n : ℕ) : List ℕ := [n % 256, n / 256 % 256]

/-- Reader of a little-endian 16-bit value. -/
def readU16 : List ℕ → Option (ℕ × List ℕ)
  | b0 :: b1 :: r => some (b0 + 256 * b1, r)
  | _ => none

/-- Little-endian bytes of a 32-bit value. -/
def writeU32 (n : ℕ) : List ℕ :=
  [n % 256, n / 256 % 256, n / 65536 % 256, n / 16777216 % 256]

/-- Reader of a little-endian 32-bit value. -/
def readU32 : List ℕ → Option (ℕ × List ℕ)
  | b0 :: b1 :: b2 :: b3 :: r =>
    some (b0 + 256 * b1 + 65536 * b2 + 16777216 * b3, r)
  | _ => none

/-- Little-endian bytes of a 64-bit value (one GLdouble travels as its
64-bit pattern). -/
def writeU64 (n : ℕ) : List ℕ :=
  [n % 256, n / 256 % 256, n / 65536 % 256, n / 16777216 % 256,
    n / 4294967296 % 256, n / 1099511627776 % 256,
    n / 281474976710656 % 256, n / 72057594037927936 % 256]

/-- Reader of a little-endian 64-bit value. -/
def readU64 : List ℕ → Option (ℕ × List ℕ)
  | b0 :: b1 :: b2 :: b3 :: b4 :: b5 :: b6 :: b7 :: r =>
    some (b0 + 256 * b1 + 65536 * b2 + 16777216 * b3 + 4294967296 * b4 +
      1099511627776 * b5 + 281474976710656 * b6 +
      72057594037927936 * b7, r)
  | _ => none

/-- Bytes of a NUL-terminated texture map name as the savers emit them
(strlen + 1 bytes). -/
def writeCStr (s : List ℕ) : List ℕ := s ++ [0]

/-- The name reading loop of the loaders (gld.c and bspc.c): read bytes into
a 256-byte buffer until a NUL arrives or 256 bytes have been read; a 256th
non-NUL byte is consumed but overwritten with NUL, truncating the name to
255 bytes. -/
def readCStrAux : ℕ → List ℕ → Option (List ℕ × List ℕ)
  | _, [] => none
  | j, b :: r =>
    if b = 0 then some ([], r)
    else if j < 255 then
      match readCStrAux (j + 1) r with
      | some (nm, r2) => some (b :: nm, r2)
      | none => none
    else some ([], r)

/-- Reader of one NUL-terminated name. -/
def readCStr (s : List ℕ) : Option (List ℕ × List ℕ) := readCStrAux 0 s

/-- Concatenated bytes of a list of records. -/
def writeList {α : Type} (w : α → List ℕ) (xs : List α) : List ℕ :=
  (xs.map w).flatten

/-- Reader of a fixed number of records. -/
def readList {α : Type} (rd : List ℕ → Option (α × List ℕ)) :
    ℕ → List ℕ → Option (List α × List ℕ)
  | 0, s => some ([], s)
  | n + 1, s =>
    match rd s with
    | none => none
    | some (a, s2) =>
      match readList rd n s2 with
      | none => none
      | some (as2, s3) => some (a :: as2, s3)

theorem readU8_writeU8 (b : ℕ) (r : List ℕ) : readU8 (b :: r) = some (b, r) :=
  rfl

theorem readU16_writeU16 (n : ℕ) (r : List ℕ) (h : n < 65536) :
    readU16 (writeU16 n ++ r) = some (n, r) := by
  simp only [writeU16, List.cons_append, List.nil_append, readU16,
    Option.some.injEq, Prod.mk.injEq]
  exact ⟨by omega, trivial⟩

theorem readU32_writeU32 (n : ℕ) (r : List ℕ) (h : n < 4294967296) :
    readU32 (writeU32 n ++ r) = some (n, r) := by
  simp only [writeU32, List.cons_append, List.nil_append, readU32,
    Option.some.injEq, Prod.mk.injEq]
  exact ⟨by omega, trivial⟩

theorem readU64_writeU64 (n : ℕ) (r : List ℕ) (h : n < 18446744073709551616) :
    readU64 (writeU64 n ++ r) = some (n, r) := by
  simp only [writeU64, List.cons_append, List.nil_append, readU64,
    Option.some.injEq, Prod.mk.injEq]
  exact ⟨by omega, trivial⟩

theorem readCStrAux_writeCStr (s : List ℕ) :
    ∀ (j : ℕ) (r : List ℕ), j + s.length ≤ 255 → (∀ b ∈ s, b ≠ 0) →
      readCStrAux j (s ++ 0 :: r) = some (s, r) := by
  induction s with
  | nil =>
    intro j r _ _
    rw [List.nil_append, readCStrAux, if_pos rfl]
  | cons b bs ih =>
    intro j r hlen hz
    have hb : b ≠ 0 := hz b (List.mem_cons_self b bs)
    rw [List.cons_append, readCStrAux, if_neg hb,
      if_pos (by simp at hlen; omega)]
    rw [ih (j + 1) r (by simp at hlen ⊢; omega)
      (fun x hx => hz x (List.mem_cons_of_mem b hx))]

theorem readCStr_writeCStr (s : List ℕ) (r : List ℕ) (hlen : s.length ≤ 255)
    (hz : ∀ b ∈ s, b ≠ 0) : readCStr (writeCStr s ++ r) = some (s, r) := by
  unfold readCStr writeCStr
  rw [List.append_assoc, List.singleton_append]
  exact readCStrAux_writeCStr s 0 r (by omega) hz

theorem readList_writeList {α : Type} (rd : List ℕ → Option (α × List ℕ))
    (w : α → List ℕ) (xs : List α)
    (h : ∀ x ∈ xs, ∀ r, rd (w x ++ r) = some (x, r)) :
    ∀ r, readList rd xs.length (writeList w xs ++ r) = some (xs, r) := by
  induction xs with
  | nil =>
    intro r
    simp [writeList, readList]
  | cons x xs ih =>
    intro r
    have hx : writeList w (x :: xs) ++ r = w x ++ (writeList w xs ++ r) := by
      simp [writeList]
    rw [List.length_cons, hx, readList,
      h x (List.mem_cons_self x xs) (writeList w xs ++ r)]
    simp only []
    rw [ih (fun y hy => h y (List.mem_cons_of_mem x hy)) r]

/-- Run-time GLData (gld.h) at the byte level: every GLfloat field is kept
as its 32-bit pattern, a natural number below 2 to the 32, since SaveGLData
and LoadGLData move floats as raw bytes and never compute with them. -/
structure GLData where
  nMaps : ℕ
  mapNames : List (List ℕ)
  mapTriNums : List ℕ
  nVertices : ℕ
  vertCoords : List ℕ
  texCoords : List ℕ
  minX : ℕ
  maxX : ℕ
  minY : ℕ
  maxY : ℕ
  minZ : ℕ
  maxZ : ℕ
  numTri : ℕ
  triFaces : List (List ℕ)
deriving DecidableEq, Repr, Inhabited

/-- The signature of a GLD file (gld.h, "GLD" with its terminator). -/
def GLD_FILE_MAGIC : List ℕ := [71, 76, 68, 0]

/-- The GLD format version (gld.h, 0x10). -/
def GLD_VER : ℕ := 16

/-- Well-formedness of a GLData value as the format requires: counts within
their integer widths, tables of their nominal lengths, names of at most 255
NUL-free bytes, and every stored byte pattern within width.  A mesh built
by GenGLData within the documented capacity (at most 65535 vertex
definitions and texture maps) satisfies these bounds by construction. -/
def GLData.WF (g : GLData) : Prop :=
  g.mapNames.length = g.nMaps ∧ g.mapTriNums.length = g.nMaps ∧
    g.triFaces.length = g.nMaps ∧ g.nMaps < 65536 ∧ g.nVertices < 65536 ∧
    g.numTri < 4294967296 ∧
    (∀ nm ∈ g.mapNames, nm.length ≤ 255 ∧ ∀ b ∈ nm, b ≠ 0 ∧ b < 256) ∧
    (∀ n ∈ g.mapTriNums, n < 4294967296) ∧
    g.vertCoords.length = 3 * g.nVertices ∧
    (∀ c ∈ g.vertCoords, c < 4294967296) ∧
    g.texCoords.length = 2 * g.nVertices ∧
    (∀ c ∈ g.texCoords, c < 4294967296) ∧
    g.minX < 4294967296 ∧ g.maxX < 4294967296 ∧ g.minY < 4294967296 ∧
    g.maxY < 4294967296 ∧ g.minZ < 4294967296 ∧ g.maxZ < 4294967296 ∧
    (∀ p ∈ g.triFaces.zip g.mapTriNums, (p : List ℕ × ℕ).1.length = 3 * p.2) ∧
    (∀ fl ∈ g.triFaces, ∀ ix ∈ fl, ix < 65536)

/-- SaveGLData (gld.c): the byte stream of a mesh, exactly in the order the
source emits its fwrite calls. -/
def SaveGLData (g : GLData) : List ℕ :=
  GLD_FILE_MAGIC ++ [GLD_VER] ++
    writeU16 g.nMaps ++ writeList writeCStr g.mapNames ++
    writeList writeU32 g.mapTriNums ++
    writeU16 g.nVertices ++ writeList writeU32 g.vertCoords ++
    writeList writeU32 g.texCoords ++
    writeU32 g.minX ++ writeU32 g.maxX ++ writeU32 g.minY ++ writeU32 g.maxY ++
    writeU32 g.minZ ++ writeU32 g.maxZ ++ writeU32 g.numTri ++
    writeList (writeList writeU16) g.triFaces

/-- Reader of the first four signature bytes (fread of sigSize bytes). -/
def readMagic4 : List ℕ → Option (List ℕ × List ℕ)
  | b0 :: b1 :: b2 :: b3 :: r => some ([b0, b1, b2, b3], r)
  | _ => none

/-- The per-texture index array reads of LoadGLData (gld.c): for each count
c of the loaded mapTriNums, read 3 * c 16-bit indices. -/
def readFacesLists : List ℕ → List ℕ → Option (List (List ℕ) × List ℕ)
  | [], s => some ([], s)
  | c :: cs, s =>
    match readList readU16 (3 * c) s with
    | none => none
    | some (f, s2) =>
      match readFacesLists cs s2 with
      | none => none
      | some (fs, s3) => some (f :: fs, s3)

/-- LoadGLData (gld.c): parse the byte stream of a mesh; none where the
source returns NULL (bad signature or version) and also where the stream
ends early (where the C fread calls would leave buffers unread). -/
def LoadGLData (s : List ℕ) : Option GLData :=
  match readMagic4 s with
  | none => none
  | some (sig, s1) =>
    match readU8 s1 with
    | none => none
    | some (ver, s2) =>
      if sig = GLD_FILE_MAGIC ∧ ver = GLD_VER then
        match readU16 s2 with
        | none => none
        | some (nMaps, s3) =>
          match readList readCStr nMaps s3 with
          | none => none
          | some (names, s4) =>
            match readList readU32 nMaps s4 with
            | none => none
            | some (mtn, s5) =>
              match readU16 s5 with
              | none => none
              | some (nV, s6) =>
                match readList readU32 (3 * nV) s6 with
                | none => none
                | some (vc, s7) =>
                  match readList readU32 (2 * nV) s7 with
                  | none => none
                  | some (tc, s8) =>
                    match readU32 s8 with
                    | none => none
                    | some (mnX, s9) =>
                      match readU32 s9 with
                      | none => none
                      | some (mxX, s10) =>
                        match readU32 s10 with
                        | none => none
                        | some (mnY, s11) =>
                          match readU32 s11 with
                          | none => none
                          | some (mxY, s12) =>
                            match readU32 s12 with
                            | none => none
                            | some (mnZ, s13) =>
                              match readU32 s13 with
                              | none => none
                              | some (mxZ, s14) =>
                                match readU32 s14 with
                                | none => none
                                | some (nT, s15) =>
                                  match readFacesLists mtn s15 with
                                  | none => none
                                  | some (faces, _) =>
                                    some ⟨nMaps, names, mtn, nV, vc, tc,
                                      mnX, mxX, mnY, mxY, mnZ, mxZ, nT, faces⟩
      else none

theorem readFacesLists_roundtrip :
    ∀ (faces : List (List ℕ)) (mtn : List ℕ),
      (∀ p ∈ faces.zip mtn, (p : List ℕ × ℕ).1.length = 3 * p.2) →
      (∀ fl ∈ faces, ∀ ix ∈ fl, ix < 65536) →
      faces.length = mtn.length →
      ∀ r, readFacesLists mtn (writeList (writeList writeU16) faces ++ r) =
        some (faces, r) := by
  intro faces
  induction faces with
  | nil =>
    intro mtn _ _ hlen r
    have : mtn = [] := List.length_eq_zero.mp (by simp at hlen; omega)
    subst this
    simp [readFacesLists, writeList]
  | cons f fs ih =>
    intro mtn hcnt hix hlen r
    cases mtn with
    | nil => simp at hlen
    | cons c cs =>
      have hfc : f.length = 3 * c := hcnt (f, c) (by simp)
      have hx : writeList (writeList writeU16) (f :: fs) ++ r =
          writeList writeU16 f ++ (writeList (writeList writeU16) fs ++ r) := by
        simp [writeList]
      rw [readFacesLists, hx, ← hfc]
      rw [readList_writeList readU16 writeU16 f
        (fun x hxm r2 => readU16_writeU16 x r2 (hix f (by simp) x hxm)) _]
      simp only []
      rw [ih cs (fun p hp => hcnt p (by simp [hp]))
        (fun fl hfl => hix fl (List.mem_cons_of_mem f hfl))
        (by simpa using hlen) r]

/-- Claim C7: for every well-formed mesh (in particular every mesh built by
GenGLData within the documented capacity), writing it with SaveGLData and
reading the bytes back with LoadGLData restores an identical mesh: same
nMaps, map names, mapTriNums, nVertices, bit-identical vertex and texture
coordinate tables, bit-identical bounds, same numTri and identical
per-texture index arrays. -/
theorem loadGLData_saveGLData (g : GLData) (h : GLData.WF g) :
    LoadGLData (SaveGLData g) = some g := by
  obtain ⟨hnme, hmtl, htfl, hnm, hnv, hnt, hnames, hmtn, hvcl, hvcb, htcl,
    htcb, hb1, hb2, hb3, hb4, hb5, hb6, hfc, hfb⟩ := h
  have hmagic : SaveGLData g = 71 :: 76 :: 68 :: 0 :: 16 ::
      (writeU16 g.nMaps ++ (writeList writeCStr g.mapNames ++
        (writeList writeU32 g.mapTriNums ++
        (writeU16 g.nVertices ++ (writeList writeU32 g.vertCoords ++
        (writeList writeU32 g.texCoords ++
        (writeU32 g.minX ++ (writeU32 g.maxX ++ (writeU32 g.minY ++
        (writeU32 g.maxY ++ (writeU32 g.minZ ++ (writeU32 g.maxZ ++
        (writeU32 g.numTri ++
        (writeList (writeList writeU16) g.triFaces ++ [])))))))))))))) := by
    simp [SaveGLData, GLD_FILE_MAGIC, GLD_VER, List.append_assoc]
  rw [hmagic, LoadGLData]
  simp only [readMagic4, readU8]
  rw [if_pos ⟨rfl, rfl⟩]
  rw [readU16_writeU16 g.nMaps _ hnm]
  simp only []
  rw [← hnme]
  rw [readList_writeList readCStr writeCStr g.mapNames
    (fun nm hnm2 r2 => readCStr_writeCStr nm r2 (hnames nm hnm2).1
      (fun b hb => ((hnames nm hnm2).2 b hb).1)) _]
  simp only []
  rw [hnme, ← hmtl]
  rw [readList_writeList readU32 writeU32 g.mapTriNums
    (fun n hn r2 => readU32_writeU32 n r2 (hmtn n hn)) _]
  simp only []
  rw [hmtl]
  rw [readU16_writeU16 g.nVertices _ hnv]
  simp only []
  rw [← hvcl]
  rw [readList_writeList readU32 writeU32 g.vertCoords
    (fun c hc r2 => readU32_writeU32 c r2 (hvcb c hc)) _]
  simp only []
  rw [← htcl]
  rw [readList_writeList readU32 writeU32 g.texCoords
    (fun c hc r2 => readU32_writeU32 c r2 (htcb c hc)) _]
  simp only []
  rw [readU32_writeU32 g.minX _ hb1]
  simp only []
  rw [readU32_writeU32 g.maxX _ hb2]
  simp only []
  rw [readU32_writeU32 g.minY _ hb3]
  simp only []
  rw [readU32_writeU32 g.maxY _ hb4]
  simp only []
  rw [readU32_writeU32 g.minZ _ hb5]
  simp only []
  rw [readU32_writeU32 g.maxZ _ hb6]
  simp only []
  rw [readU32_writeU32 g.numTri _ hnt]
  simp only []
  rw [readFacesLists_roundtrip g.triFaces g.mapTriNums hfc hfb
    (by omega) []]

/-- Witness for claim C7: a concrete one-texture, three-vertex,
one-triangle mesh survives the save/load round trip unchanged. -/
theorem loadGLData_saveGLData_witness :
    GLData.WF ⟨1, [[97]], [1], 3, [1, 2, 3, 4, 5, 6, 7, 8, 9],
        [10, 11, 12, 13, 14, 15], 16, 17, 18, 19, 20, 21, 1, [[0, 1, 2]]⟩ ∧
      LoadGLData (SaveGLData ⟨1, [[97]], [1], 3, [1, 2, 3, 4, 5, 6, 7, 8, 9],
          [10, 11, 12, 13, 14, 15], 16, 17, 18, 19, 20, 21, 1, [[0, 1, 2]]⟩) =
        some ⟨1, [[97]], [1], 3, [1, 2, 3, 4, 5, 6, 7, 8, 9],
          [10, 11, 12, 13, 14, 15], 16, 17, 18, 19, 20, 21, 1, [[0, 1, 2]]⟩ := by
  have hwf : GLData.WF ⟨1, [[97]], [1], 3, [1, 2, 3, 4, 5, 6, 7, 8, 9],
      [10, 11, 12, 13, 14, 15], 16, 17, 18, 19, 20, 21, 1, [[0, 1, 2]]⟩ := by
    unfold GLData.WF
    decide
  exact ⟨hwf, loadGLData_saveGLData _ hwf⟩

/-- A partition plane at the byte level: the four GLdouble coefficients as
their 64-bit patterns (the BSP serializer moves them as raw bytes). -/
structure PlaneBits where
  A : ℕ
  B : ℕ
  C : ℕ
  D : ℕ
deriving DecidableEq, Repr, Inhabited

/-- A serialized BSP tree node (bsp.h, BSPTree): canonicalized faces, the
partition plane pattern, and optional back and front subtrees. -/
inductive BSPTreeBits where
  | mk (triDefs : List BSPTriFace) (partPlane : PlaneBits)
      (back : Option BSPTreeBits) (front : Option BSPTreeBits)
deriving Inhabited

/-- Face list of a node. -/
def BSPTreeBits.triDefs : BSPTreeBits → List BSPTriFace
  | .mk t _ _ _ => t

/-- Partition plane of a node. -/
def BSPTreeBits.partPlane : BSPTreeBits → PlaneBits
  | .mk _ p _ _ => p

/-- The signature of a BSP tree data file (bsp.h, "BSP" with terminator). -/
def BSP_FILE_MAGIC : List ℕ := [66, 83, 80, 0]

/-- The BSP data version (bsp.h, 0x10). -/
def BSP_DATA_VER : ℕ := 16

/-- Bytes of one triangle face record (WriteBSPTree: texIndex then the
three vertex indices, 16 bits each). -/
def writeFace (f : BSPTriFace) : List ℕ :=
  writeU16 f.texIndex ++ writeU16 f.vIndices.1 ++ writeU16 f.vIndices.2.1 ++
    writeU16 f.vIndices.2.2

/-- Reader of one triangle face record. -/
def readFace (s : List ℕ) : Option (BSPTriFace × List ℕ) :=
  match readU16 s with
  | none => none
  | some (t, s1) =>
    match readU16 s1 with
    | none => none
    | some (v0, s2) =>
      match readU16 s2 with
      | none => none
      | some (v1, s3) =>
        match readU16 s3 with
        | none => none
        | some (v2, s4) => some (⟨t, (v0, v1, v2)⟩, s4)

/-- Bytes of a partition plane (4 x 64-bit patterns). -/
def writePlaneBits (p : PlaneBits) : List ℕ :=
  writeU64 p.A ++ writeU64 p.B ++ writeU64 p.C ++ writeU64 p.D

/-- Reader of a partition plane. -/
def readPlaneBits (s : List ℕ) : Option (PlaneBits × List ℕ) :=
  match readU64 s with
  | none => none
  | some (a, s1) =>
    match readU64 s1 with
    | none => none
    | some (b, s2) =>
      match readU64 s2 with
      | none => none
      | some (c, s3) =>
        match readU64 s3 with
        | none => none
        | some (d, s4) => some (⟨a, b, c, d⟩, s4)

/-- The child-presence flag byte of WriteBSPTree (bspc.c): 0x00, or the OR
of 0xB0 (back present) and 0x0F (front present). -/
def cFlagOf : Option BSPTreeBits → Option BSPTreeBits → ℕ
  | none, none => 0
  | some _, none => 176
  | none, some _ => 15
  | some _, some _ => 191

/-- Per-node bytes of WriteBSPTree (bspc.c) before the subtrees: the face
count, the face records, the partition plane only when the node carries no
triangles, and the child-presence flag. -/
def nodeHeader (tds : List BSPTriFace) (p : PlaneBits) (flag : ℕ) : List ℕ :=
  writeU16 tds.length ++ writeList writeFace tds ++
    (if tds.length = 0 then writePlaneBits p else []) ++ [flag]

/-- WriteBSPTree (bspc.c): preorder bytes of a tree (node, then back
subtree, then front subtree). -/
def WriteBSPTree : BSPTreeBits → List ℕ
  | .mk tds p none none => nodeHeader tds p 0
  | .mk tds p (some bt) none => nodeHeader tds p 176 ++ WriteBSPTree bt
  | .mk tds p none (some ft) => nodeHeader tds p 15 ++ WriteBSPTree ft
  | .mk tds p (some bt) (some ft) =>
    nodeHeader tds p 191 ++ WriteBSPTree bt ++ WriteBSPTree ft

/-- Outcome of reading a node or a whole file: a value with the rest of the
stream, the fatal process-exit path of the source (corrupt cFlag or a
degenerate triangle in the file), or an exhausted stream (where the C fread
calls would leave buffers unread). -/
inductive ReadResult (α : Type) where
  | ok (val : α) (rest : List ℕ)
  | fatal
  | underflow

/-- The 9 coordinate patterns of the first triangle of a node, looked up in
the shared vertex table exactly as ReadBSPTree does (vertCoords[3*vIndex],
following entries; out-of-range reads, unchecked in C, default to 0). -/
def firstTriVertsBits (vc : List ℕ) (f : BSPTriFace) : List ℕ :=
  [vc.getD (3 * f.vIndices.1) 0, vc.getD (3 * f.vIndices.1 + 1) 0,
    vc.getD (3 * f.vIndices.1 + 2) 0,
    vc.getD (3 * f.vIndices.2.1) 0, vc.getD (3 * f.vIndices.2.1 + 1) 0,
    vc.getD (3 * f.vIndices.2.1 + 2) 0,
    vc.getD (3 * f.vIndices.2.2) 0, vc.getD (3 * f.vIndices.2.2 + 1) 0,
    vc.getD (3 * f.vIndices.2.2 + 2) 0]

/-- The partition plane step of ReadBSPTree (bspc.c): a node with no
triangles reads its plane from the stream; a node with triangles has its
plane recomputed by GetPlaneForTri (the planeOf argument) from the
canonicalized vertices of its first triangle, and a degenerate result is
the fatal corrupt-file path. -/
def readNodePlane (planeOf : List ℕ → Option PlaneBits) (vc : List ℕ)
    (n : ℕ) (tds : List BSPTriFace) (s : List ℕ) : ReadResult PlaneBits :=
  if n = 0 then
    match readPlaneBits s with
    | some (p, s2) => .ok p s2
    | none => .underflow
  else
    match planeOf (firstTriVertsBits vc (tds.headD default)) with
    | some p => .ok p s
    | none => .fatal

/-- ReadBSPTree (bspc.c): preorder reader of a tree.  The fuel argument
bounds the recursion depth (each recursive call consumes at least three
stream bytes, so stream length + 1 always suffices); running out of fuel
can only happen on an exhausted stream and is reported as underflow.  A
cFlag byte outside {0x00, 0xB0, 0x0F, 0xBF} is the fatal corrupt-file
path of the source (exit, not a null return). -/
def ReadBSPTree (planeOf : List ℕ → Option PlaneBits) (vc : List ℕ) :
    ℕ → List ℕ → ReadResult BSPTreeBits
  | 0, _ => .underflow
  | fuel + 1, s =>
    match readU16 s with
    | none => .underflow
    | some (n, s1) =>
      match readList readFace n s1 with
      | none => .underflow
      | some (tds, s2) =>
        match readNodePlane planeOf vc n tds s2 with
        | .underflow => .underflow
        | .fatal => .fatal
        | .ok p s3 =>
          match readU8 s3 with
          | none => .underflow
          | some (cf, s4) =>
            if cf = 0 then .ok (.mk tds p none none) s4
            else if cf = 176 then
              match ReadBSPTree planeOf vc fuel s4 with
              | .ok bt s5 => .ok (.mk tds p (some bt) none) s5
              | .fatal => .fatal
              | .underflow => .underflow
            else if cf = 15 then
              match ReadBSPTree planeOf vc fuel s4 with
              | .ok ft s5 => .ok (.mk tds p none (some ft)) s5
              | .fatal => .fatal
              | .underflow => .underflow
            else if cf = 191 then
              match ReadBSPTree planeOf vc fuel s4 with
              | .ok bt s5 =>
                match ReadBSPTree planeOf vc fuel s5 with
                | .ok ft s6 => .ok (.mk tds p (some bt) (some ft)) s6
                | .fatal => .fatal
                | .underflow => .underflow
              | .fatal => .fatal
              | .underflow => .underflow
            else .fatal

/-- Container for loaded BSP tree data (bsp.h, BSPTreeData), byte level. -/
structure BSPTreeData where
  nMaps : ℕ
  mapNames : List (List ℕ)
  mapTriNums : List ℕ
  nVertices : ℕ
  vertCoords : List ℕ
  texCoords : List ℕ
  minX : ℕ
  maxX : ℕ
  minY : ℕ
  maxY : ℕ
  minZ : ℕ
  maxZ : ℕ
  maxDepth : ℕ
  numNodes : ℕ
  numTri : ℕ
  bspTree : BSPTreeBits
deriving Inhabited

/-- Outcome of LoadBSPTreeData: a loaded value, the null return of the
source (bad signature or version), the fatal process-exit path reached
inside ReadBSPTree, or an exhausted stream. -/
inductive LoadResult (α : Type) where
  | ok (val : α)
  | nullResult
  | fatal
  | underflow

/-- The post-header part of LoadBSPTreeData (bspc.c): texture map names and
statistics, vertex definitions, model bounds, tree statistics, and the
preorder tree itself (read with the loaded vertex table). -/
def loadBSPBody (planeOf : List ℕ → Option PlaneBits) (s2 : List ℕ) :
    LoadResult BSPTreeData :=
  match readU16 s2 with
  | none => .underflow
  | some (nMaps, s3) =>
    match readList readCStr nMaps s3 with
    | none => .underflow
    | some (names, s4) =>
      match readList readU32 nMaps s4 with
      | none => .underflow
      | some (mtn, s5) =>
        match readU16 s5 with
        | none => .underflow
        | some (nV, s6) =>
          match readList readU32 (3 * nV) s6 with
          | none => .underflow
          | some (vc, s7) =>
            match readList readU32 (2 * nV) s7 with
            | none => .underflow
            | some (tc, s8) =>
              match readU32 s8 with
              | none => .underflow
              | some (mnX, s9) =>
                match readU32 s9 with
                | none => .underflow
                | some (mxX, s10) =>
                  match readU32 s10 with
                  | none => .underflow
                  | some (mnY, s11) =>
                    match readU32 s11 with
                    | none => .underflow
                    | some (mxY, s12) =>
                      match readU32 s12 with
                      | none => .underflow
                      | some (mnZ, s13) =>
                        match readU32 s13 with
                        | none => .underflow
                        | some (mxZ, s14) =>
                          match readU16 s14 with
                          | none => .underflow
                          | some (mxD, s15) =>
                            match readU16 s15 with
                            | none => .underflow
                            | some (nN, s16) =>
                              match readU32 s16 with
                              | none => .underflow
                              | some (nT, s17) =>
                                match ReadBSPTree planeOf vc
                                    (s17.length + 1) s17 with
                                | .ok t _ => .ok ⟨nMaps, names, mtn, nV, vc,
                                    tc, mnX, mxX, mnY, mxY, mnZ, mxZ,
                                    mxD, nN, nT, t⟩
                                | .fatal => .fatal
                                | .underflow => .underflow

/-- LoadBSPTreeData (bspc.c): check the signature and version, then parse
the body.  A failed check returns the null result; nothing after the check
can produce a null result (corruption inside the tree is fatal instead). -/
def LoadBSPTreeData (planeOf : List ℕ → Option PlaneBits) (s : List ℕ) :
    LoadResult BSPTreeData :=
  match readMagic4 s with
  | none => .underflow
  | some (sig, s1) =>
    match readU8 s1 with
    | none => .underflow
    | some (ver, s2) =>
      if sig = BSP_FILE_MAGIC ∧ ver = BSP_DATA_VER then loadBSPBody planeOf s2
      else .nullResult

theorem loadBSPBody_ne_null (planeOf : List ℕ → Option PlaneBits)
    (s2 : List ℕ) : loadBSPBody planeOf s2 ≠ .nullResult := by
  unfold loadBSPBody
  repeat' split
  all_goals intro h
  all_goals exact LoadResult.noConfusion h

/-- Claim C1, amended: a stream whose first four bytes are not "BSP" with
its terminator, or whose fifth byte is not 0x10, makes LoadBSPTreeData
return the null result; and the null result arises only that way - in
particular a corrupt cFlag inside the node stream is a fatal error (process
exit in the source), never a null return. -/
theorem loadBSPTreeData_null_iff_bad_header
    (planeOf : List ℕ → Option PlaneBits) (s : List ℕ) :
    ((5 ≤ s.length ∧
        ¬(s.take 4 = BSP_FILE_MAGIC ∧ s.getD 4 0 = BSP_DATA_VER)) →
      LoadBSPTreeData planeOf s = .nullResult) ∧
    (LoadBSPTreeData planeOf s = .nullResult →
      ¬(s.take 4 = BSP_FILE_MAGIC ∧ s.getD 4 0 = BSP_DATA_VER)) := by
  rcases s with _ | ⟨b0, _ | ⟨b1, _ | ⟨b2, _ | ⟨b3, _ | ⟨b4, rest⟩⟩⟩⟩⟩
  · exact ⟨fun h => absurd h.1 (by simp), fun h => absurd h LoadResult.noConfusion⟩
  · exact ⟨fun h => absurd h.1 (by simp), fun h => absurd h LoadResult.noConfusion⟩
  · exact ⟨fun h => absurd h.1 (by simp), fun h => absurd h LoadResult.noConfusion⟩
  · exact ⟨fun h => absurd h.1 (by simp), fun h => absurd h LoadResult.noConfusion⟩
  · exact ⟨fun h => absurd h.1 (by simp), fun h => absurd h LoadResult.noConfusion⟩
  · by_cases hgood : ([b0, b1, b2, b3] : List ℕ) = BSP_FILE_MAGIC ∧
        b4 = BSP_DATA_VER
    · constructor
      · intro ⟨_, hbad⟩
        exact absurd hgood hbad
      · intro h
        have : LoadBSPTreeData planeOf (b0 :: b1 :: b2 :: b3 :: b4 :: rest) =
            loadBSPBody planeOf rest := by
          simp only [LoadBSPTreeData, readMagic4, readU8]
          rw [if_pos hgood]
        rw [this] at h
        exact absurd h (loadBSPBody_ne_null planeOf rest)
    · constructor
      · intro _
        simp only [LoadBSPTreeData, readMagic4, readU8]
        rw [if_neg hgood]
      · intro _
        exact hgood

/-- Witness for the amended claim C1: a five-byte stream of zeros has a bad
signature and loads to the null result. -/
theorem loadBSPTreeData_null_iff_bad_header_witness :
    (5 ≤ ([0, 0, 0, 0, 0] : List ℕ).length ∧
        ¬(([0, 0, 0, 0, 0] : List ℕ).take 4 = BSP_FILE_MAGIC ∧
          ([0, 0, 0, 0, 0] : List ℕ).getD 4 0 = BSP_DATA_VER)) ∧
      LoadBSPTreeData (fun _ => some ⟨0, 0, 0, 0⟩) [0, 0, 0, 0, 0] =
        .nullResult := by
  refine ⟨⟨by decide, by decide⟩, ?_⟩
  exact (loadBSPTreeData_null_iff_bad_header (fun _ => some ⟨0, 0, 0, 0⟩)
    [0, 0, 0, 0, 0]).1 ⟨by decide, by decide⟩

/-- A well-formed BSP file prefix (valid signature, version, empty texture
and vertex tables, zero statistics) followed by an empty node whose cFlag
byte 0x42 is outside {0x00, 0xB0, 0x0F, 0xBF}. -/
def c1BadCFlagStream : List ℕ :=
  [66, 83, 80, 0, 16, 0, 0, 0, 0] ++ List.replicate 24 0 ++
    [0, 0, 0, 0, 0, 0, 0, 0, 0, 0] ++ List.replicate 32 0 ++ [66]

/-- Counterexample to claim C1 as stated: on a stream with a good signature
and version but a cFlag byte outside the four legal values, the loader hits
the fatal process-exit path of ReadBSPTree and does not return a null
result to the caller. -/
theorem loadBSPTreeData_bad_cflag_not_null :
    LoadBSPTreeData (fun _ => some ⟨0, 0, 0, 0⟩) c1BadCFlagStream = .fatal ∧
      LoadBSPTreeData (fun _ => some ⟨0, 0, 0, 0⟩) c1BadCFlagStream ≠
        .nullResult := by
  constructor
  · rfl
  · intro h
    rw [show LoadBSPTreeData (fun _ => some ⟨0, 0, 0, 0⟩) c1BadCFlagStream =
      .fatal from rfl] at h
    exact LoadResult.noConfusion h

/-- Width bounds on the four stored coefficient patterns of a plane. -/
def PlaneBits.WF (p : PlaneBits) : Prop :=
  p.A < 18446744073709551616 ∧ p.B < 18446744073709551616 ∧
    p.C < 18446744073709551616 ∧ p.D < 18446744073709551616

theorem readPlaneBits_writePlaneBits (p : PlaneBits) (r : List ℕ)
    (h : PlaneBits.WF p) : readPlaneBits (writePlaneBits p ++ r) = some (p, r) := by
  obtain ⟨hA, hB, hC, hD⟩ := h
  unfold writePlaneBits readPlaneBits
  rw [List.append_assoc, List.append_assoc, List.append_assoc]
  rw [readU64_writeU64 p.A _ hA]
  simp only []
  rw [readU64_writeU64 p.B _ hB]
  simp only []
  rw [readU64_writeU64 p.C _ hC]
  simp only []
  rw [readU64_writeU64 p.D _ hD]

theorem readList_length {α : Type} (rd : List ℕ → Option (α × List ℕ)) :
    ∀ (n : ℕ) (s : List ℕ) (as2 : List α) (s2 : List ℕ),
      readList rd n s = some (as2, s2) → as2.length = n := by
  intro n
  induction n with
  | zero =>
    intro s as2 s2 h
    rw [readList] at h
    simp only [Option.some.injEq, Prod.mk.injEq] at h
    rw [← h.1]
    rfl
  | succ n ih =>
    intro s as2 s2 h
    rw [readList] at h
    rcases hrd : rd s with _ | ⟨a, s3⟩
    · rw [hrd] at h
      exact absurd h (by simp)
    · rw [hrd] at h
      simp only [] at h
      rcases hrl : readList rd n s3 with _ | ⟨as3, s4⟩
      · rw [hrl] at h
        exact absurd h (by simp)
      · rw [hrl] at h
        simp only [Option.some.injEq, Prod.mk.injEq] at h
        rw [← h.1]
        simp [ih s3 as3 s4 hrl]

theorem readNodePlane_ok (planeOf : List ℕ → Option PlaneBits) (vc : List ℕ)
    (n : ℕ) (tds : List BSPTriFace) (s : List ℕ) (p : PlaneBits)
    (s3 : List ℕ) (h : readNodePlane planeOf vc n tds s = .ok p s3)
    (hn : n ≠ 0) :
    planeOf (firstTriVertsBits vc (tds.headD default)) = some p := by
  unfold readNodePlane at h
  rw [if_neg hn] at h
  rcases hpl : planeOf (firstTriVertsBits vc (tds.headD default)) with _ | p2
  · rw [hpl] at h
    exact absurd h (by simp only []; exact fun hh => ReadResult.noConfusion hh)
  · rw [hpl] at h
    simp only [] at h
    injection h with h1 h2
    rw [h1]

theorem readBSPTree_plane_recomputed (planeOf : List ℕ → Option PlaneBits)
    (vc : List ℕ) :
    ∀ (fuel : ℕ) (s : List ℕ) (t : BSPTreeBits) (rest : List ℕ),
      ReadBSPTree planeOf vc fuel s = .ok t rest → t.triDefs ≠ [] →
      planeOf (firstTriVertsBits vc (t.triDefs.headD default)) =
        some t.partPlane := by
  intro fuel s t rest h hne
  match fuel with
  | 0 => exact absurd h (by rw [ReadBSPTree]; exact fun hh => ReadResult.noConfusion hh)
  | fuel + 1 =>
    rw [ReadBSPTree] at h
    rcases h16 : readU16 s with _ | ⟨n, s1⟩ <;> rw [h16] at h
    · exact absurd h (by simp only []; exact fun hh => ReadResult.noConfusion hh)
    simp only [] at h
    rcases hfl : readList readFace n s1 with _ | ⟨tds, s2⟩ <;> rw [hfl] at h
    · exact absurd h (by simp only []; exact fun hh => ReadResult.noConfusion hh)
    simp only [] at h
    rcases hnp : readNodePlane planeOf vc n tds s2 with ⟨p, s3⟩ | _ | _ <;>
      rw [hnp] at h
    rotate_left 1
    · exact absurd h (by simp only []; exact fun hh => ReadResult.noConfusion hh)
    · exact absurd h (by simp only []; exact fun hh => ReadResult.noConfusion hh)
    simp only [] at h
    rcases h8 : readU8 s3 with _ | ⟨cf, s4⟩ <;> rw [h8] at h
    · exact absurd h (by simp only []; exact fun hh => ReadResult.noConfusion hh)
    simp only [] at h
    have hlen : tds.length = n := readList_length readFace n s1 tds s2 hfl
    by_cases hcf0 : cf = 0
    · rw [if_pos hcf0] at h
      injection h with h1 h2
      subst h1
      have hn0 : n ≠ 0 := by
        intro hz
        exact hne (by
          show tds = []
          exact List.length_eq_zero.mp (by omega))
      exact readNodePlane_ok planeOf vc n tds s2 p s3 hnp hn0
    rw [if_neg hcf0] at h
    by_cases hcf1 : cf = 176
    · rw [if_pos hcf1] at h
      rcases hr1 : ReadBSPTree planeOf vc fuel s4 with ⟨bt, s5⟩ | _ | _ <;>
        rw [hr1] at h
      rotate_left 1
      · exact absurd h (by simp only []; exact fun hh => ReadResult.noConfusion hh)
      · exact absurd h (by simp only []; exact fun hh => ReadResult.noConfusion hh)
      simp only [] at h
      injection h with h1 h2
      subst h1
      have hn0 : n ≠ 0 := by
        intro hz
        exact hne (by
          show tds = []
          exact List.length_eq_zero.mp (by omega))
      exact readNodePlane_ok planeOf vc n tds s2 p s3 hnp hn0
    rw [if_neg hcf1] at h
    by_cases hcf2 : cf = 15
    · rw [if_pos hcf2] at h
      rcases hr1 : ReadBSPTree planeOf vc fuel s4 with ⟨ft, s5⟩ | _ | _ <;>
        rw [hr1] at h
      rotate_left 1
      · exact absurd h (by simp only []; exact fun hh => ReadResult.noConfusion hh)
      · exact absurd h (by simp only []; exact fun hh => ReadResult.noConfusion hh)
      simp only [] at h
      injection h with h1 h2
      subst h1
      have hn0 : n ≠ 0 := by
        intro hz
        exact hne (by
          show tds = []
          exact List.length_eq_zero.mp (by omega))
      exact readNodePlane_ok planeOf vc n tds s2 p s3 hnp hn0
    rw [if_neg hcf2] at h
    by_cases hcf3 : cf = 191
    · rw [if_pos hcf3] at h
      rcases hr1 : ReadBSPTree planeOf vc fuel s4 with ⟨bt, s5⟩ | _ | _ <;>
        rw [hr1] at h
      rotate_left 1
      · exact absurd h (by simp only []; exact fun hh => ReadResult.noConfusion hh)
      · exact absurd h (by simp only []; exact fun hh => ReadResult.noConfusion hh)
      simp only [] at h
      rcases hr2 : ReadBSPTree planeOf vc fuel s5 with ⟨ft, s6⟩ | _ | _ <;>
        rw [hr2] at h
      rotate_left 1
      · exact absurd h (by simp only []; exact fun hh => ReadResult.noConfusion hh)
      · exact absurd h (by simp only []; exact fun hh => ReadResult.noConfusion hh)
      simp only [] at h
      injection h with h1 h2
      subst h1
      have hn0 : n ≠ 0 := by
        intro hz
        exact hne (by
          show tds = []
          exact List.length_eq_zero.mp (by omega))
      exact readNodePlane_ok planeOf vc n tds s2 p s3 hnp hn0
    rw [if_neg hcf3] at h
    exact absurd h (by exact fun hh => ReadResult.noConfusion hh)

theorem writeBSPTree_plane_independent (tds : List BSPTriFace)
    (p p2 : PlaneBits) (b f : Option BSPTreeBits) (hne : tds ≠ []) :
    WriteBSPTree (.mk tds p b f) = WriteBSPTree (.mk tds p2 b f) := by
  cases b <;> cases f <;>
    simp [WriteBSPTree, nodeHeader, hne]

theorem readBSPTree_empty_node_plane (planeOf : List ℕ → Option PlaneBits)
    (vc : List ℕ) (p : PlaneBits) (rest : List ℕ) (fuel : ℕ)
    (hwf : PlaneBits.WF p) :
    ReadBSPTree planeOf vc (fuel + 1)
        (WriteBSPTree (.mk [] p none none) ++ rest) =
      .ok (.mk [] p none none) rest := by
  have hw : WriteBSPTree (.mk [] p none none) ++ rest =
      writeU16 0 ++ (writePlaneBits p ++ (0 :: rest)) := by
    simp [WriteBSPTree, nodeHeader, writeList, List.append_assoc]
  rw [ReadBSPTree, hw]
  rw [readU16_writeU16 0 _ (by omega)]
  simp only []
  rw [show readList readFace 0 (writePlaneBits p ++ (0 :: rest)) =
    some ([], writePlaneBits p ++ (0 :: rest)) from rfl]
  simp only []
  rw [show readNodePlane planeOf vc 0 [] (writePlaneBits p ++ (0 :: rest)) =
      (match readPlaneBits (writePlaneBits p ++ (0 :: rest)) with
        | some (pp, s2) => ReadResult.ok pp s2
        | none => ReadResult.underflow) from by
    unfold readNodePlane
    rw [if_pos rfl]]
  rw [readPlaneBits_writePlaneBits p _ hwf]
  simp only []
  rw [show readU8 (0 :: rest) = some (0, rest) from rfl]
  simp only []
  rw [if_pos trivial]

/-- Claim C2: the serializer writes the partition plane exactly for nodes
with numTri = 0.  Stated extensionally: (1) the bytes of a node with
triangles do not depend on its plane; (2) the plane of an empty node is
written and read back exactly; (3) any node read with numTri above 0 has
its plane recomputed by GetPlaneForTri (planeOf) from the canonicalized
vertices of its first triangle, not read from the stream. -/
theorem bspNode_plane_write_read (planeOf : List ℕ → Option PlaneBits) :
    (∀ (tds : List BSPTriFace) (p p2 : PlaneBits) (b f : Option BSPTreeBits),
        tds ≠ [] →
        WriteBSPTree (.mk tds p b f) = WriteBSPTree (.mk tds p2 b f)) ∧
      (∀ (vc : List ℕ) (p : PlaneBits) (rest : List ℕ) (fuel : ℕ),
        PlaneBits.WF p →
        ReadBSPTree planeOf vc (fuel + 1)
            (WriteBSPTree (.mk [] p none none) ++ rest) =
          .ok (.mk [] p none none) rest) ∧
      (∀ (vc : List ℕ) (fuel : ℕ) (s : List ℕ) (t : BSPTreeBits)
          (rest : List ℕ),
        ReadBSPTree planeOf vc fuel s = .ok t rest → t.triDefs ≠ [] →
        planeOf (firstTriVertsBits vc (t.triDefs.headD default)) =
          some t.partPlane) :=
  ⟨fun tds p p2 b f hne => writeBSPTree_plane_independent tds p p2 b f hne,
    fun vc p rest fuel hwf =>
      readBSPTree_empty_node_plane planeOf vc p rest fuel hwf,
    fun vc fuel s t rest h hne =>
      readBSPTree_plane_recomputed planeOf vc fuel s t rest h hne⟩

/-- Witness for claim C2 at concrete nodes: two different planes give the
same bytes for a one-triangle node, and an empty node round-trips its
plane. -/
theorem bspNode_plane_write_read_witness :
    WriteBSPTree (.mk [⟨0, (0, 1, 2)⟩] ⟨1, 2, 3, 4⟩ none none) =
        WriteBSPTree (.mk [⟨0, (0, 1, 2)⟩] ⟨5, 6, 7, 8⟩ none none) ∧
      ReadBSPTree (fun _ => some ⟨0, 0, 0, 0⟩) [] 1
          (WriteBSPTree (.mk [] ⟨1, 2, 3, 4⟩ none none) ++ []) =
        .ok (.mk [] ⟨1, 2, 3, 4⟩ none none) [] :=
  ⟨(bspNode_plane_write_read (fun _ => some ⟨0, 0, 0, 0⟩)).1
      [⟨0, (0, 1, 2)⟩] ⟨1, 2, 3, 4⟩ ⟨5, 6, 7, 8⟩ none none (by simp),
    (bspNode_plane_write_read (fun _ => some ⟨0, 0, 0, 0⟩)).2.1
      [] ⟨1, 2, 3, 4⟩ [] 0 (by exact ⟨by decide, by decide, by decide, by decide⟩)⟩

end VTaj
